import Mathlib

/-!
Verification of the pfs-parser ABNF core (`src/include/pfs/parser/abnf/parser.hpp`)
against its natural-language specification.

The input sequence is modelled as a `List Nat` of byte values; an iterator is a
`Nat` index into that list, with `pos = s.length` playing the role of the
past-the-end iterator `last`.  Dereferencing the iterator is modelled with
`List.get?`, so that every dereference the C++ code performs without first
checking `p != last` is visible: if the dereference happens at (or past) the
end position the whole run evaluates to the distinguished result `PRes.oob`
(out-of-bounds read, undefined behaviour in the C++).

The observer (`ctx`) is modelled as an arbitrary state type `σ` together with a
record of callback functions `ObsFuns σ`; every callback invocation is
additionally recorded, in call order, in an event trace carried by the parser
state, so that theorems can speak about which callbacks a run emitted.
-/

namespace PfsParser

/-- Byte sequences stand in for the C++ forward-iterator ranges. -/
abbrev Input := List Nat

/-- The `long` maximum of the reference platform, `std::numeric_limits<long>::max()`
with a 64-bit `long`. -/
def longMax : Int := 9223372036854775807

/-- The `long` minimum of the reference platform (two's complement). -/
def longMin : Int := -9223372036854775808

/-- The `int` maximum, used by the repetition ranges (`unlimited_range`). -/
def intMax : Int := 2147483647

/-- `cutoff_value` from `to_decimal_number`: `-(LONG_MIN / 10)` with C++
truncating division, i.e. `922337203685477580`. -/
def cutoff_value : Int := 922337203685477580

/-- `cutoff_limit` from `to_decimal_number`: `-(LONG_MIN % 10)` with C++
remainder semantics, i.e. `8`. -/
def cutoff_limit : Int := 8

/-- Two's-complement wrap-around of a 64-bit signed integer; models what the
hardware does on the (formally undefined) signed overflow in `to_decimal_number`. -/
def wrap64 (n : Int) : Int := Int.emod (n + 9223372036854775808) 18446744073709551616 - 9223372036854775808

/-- The unsigned 32-bit value `uint32_t(*first) - uint32_t('0')` computed by
`to_decimal_number` for a character (byte) `c`. -/
def decDigitOf (c : Nat) : Nat := (c + 4294967248) % 4294967296

/-- Loop of `to_decimal_number` (parser.hpp lines 66-82): `result` accumulates
`result * 10 + digit` guarded by the cutoff test; the accumulation itself is a
64-bit signed operation, hence `wrap64`. -/
def to_decimal_go : List Nat → Int → Int × Bool
  | [], result => (result, true)
  | c :: rest, result =>
    if decDigitOf c > 9 then (0, false)
    else if result < cutoff_value ∨ (result = cutoff_value ∧ (decDigitOf c : Int) ≤ cutoff_limit) then
      to_decimal_go rest (wrap64 (result * 10 + (decDigitOf c : Int)))
    else (longMax, false)

/-- `to_decimal_number` (parser.hpp lines 54-85): convert a span of decimal
digits to a signed `long`, reporting `(0, false)` on a non-digit character and
`(LONG_MAX, false)` when the cutoff guard detects an overflow. -/
def to_decimal_number (l : List Nat) : Int × Bool := to_decimal_go l 0

/-- Value denoted by a digit string, written from the spec's words ("a span of
decimal digits denoting the value v"), for comparison with `to_decimal_number`. -/
def specDecimalValue (l : List Nat) : Int :=
  l.foldl (fun a c => a * 10 + ((c : Int) - 48)) 0

/-- DIGIT predicate (core rules, spec section 4.1). -/
def is_digit_char (c : Nat) : Bool := decide (48 ≤ c ∧ c ≤ 57)

/-- ALPHA predicate (core rules, spec section 4.1). -/
def is_alpha_char (c : Nat) : Bool := decide ((65 ≤ c ∧ c ≤ 90) ∨ (97 ≤ c ∧ c ≤ 122))

/-- HEXDIG predicate (core rules, spec section 4.1). -/
def is_hexdigit_char (c : Nat) : Bool :=
  is_digit_char c || decide ((65 ≤ c ∧ c ≤ 70) ∨ (97 ≤ c ∧ c ≤ 102))

/-- BIT predicate (core rules, spec section 4.1). -/
def is_bit_char (c : Nat) : Bool := decide (c = 48 ∨ c = 49)

/-- SP predicate (core rules, spec section 4.1). -/
def is_space_char (c : Nat) : Bool := decide (c = 32)

/-- WSP predicate: SP or HTAB (core rules, spec section 4.1). -/
def is_whitespace_char (c : Nat) : Bool := decide (c = 32 ∨ c = 9)

/-- CR predicate (core rules, spec section 4.1). -/
def is_cr_char (c : Nat) : Bool := decide (c = 13)

/-- LF predicate (core rules, spec section 4.1). -/
def is_lf_char (c : Nat) : Bool := decide (c = 10)

/-- DQUOTE predicate (core rules, spec section 4.1). -/
def is_dquote_char (c : Nat) : Bool := decide (c = 34)

/-- VCHAR predicate (core rules, spec section 4.1). -/
def is_visible_char (c : Nat) : Bool := decide (33 ≤ c ∧ c ≤ 126)

/-- `is_prose_value_char` (parser.hpp lines 94-102): `%x20-3D / %x3F-7E`. -/
def is_prose_value_char (c : Nat) : Bool :=
  decide ((32 ≤ c ∧ c ≤ 61) ∨ (63 ≤ c ∧ c ≤ 126))

/-- Length of the maximal run of characters satisfying `f` starting at
position `p`; models loops of the shape `while (p != last && f(*p)) ++p;`. -/
def runLen (s : Input) (p : Nat) (f : Nat → Bool) : Nat :=
  ((s.drop p).takeWhile f).length

/-- Modelled from the spec: the low-level token advancer for a `1*<class>` run
(`advance_digit_chars` and friends live in `core_rules.hpp`, which is not part
of `src/`); returns whether at least one character was consumed, together with
the new position. -/
def advanceRun (s : Input) (p : Nat) (f : Nat → Bool) : Bool × Nat :=
  let n := runLen s p f
  (n ≠ 0, p + n)

/-- Modelled from the spec: `advance_newline` from `core_rules.hpp` (not under
`src/`); the spec says the parser accepts `CRLF`, `LF`, or `CR` as a line
terminator (spec sections 4.4 "comment" and 9 "Open questions"). -/
def advance_newline (s : Input) (p : Nat) : Bool × Nat :=
  match s.get? p with
  | some c =>
    if is_cr_char c then
      match s.get? (p + 1) with
      | some c2 => if is_lf_char c2 then (true, p + 2) else (true, p + 1)
      | none => (true, p + 1)
    else if is_lf_char c then (true, p + 1)
    else (false, p)
  | none => (false, p)

/-- Modelled from the spec: `advance_linear_whitespace` from `core_rules.hpp`
(not under `src/`); one step of RFC 5234 `LWSP`, a WSP or a line terminator
followed by a WSP ("rule continues if next line starts with white space"). -/
def advance_linear_whitespace (s : Input) (p : Nat) : Bool × Nat :=
  match s.get? p with
  | some c =>
    if is_whitespace_char c then (true, p + 1)
    else
      let nl := advance_newline s p
      if nl.1 then
        match s.get? nl.2 with
        | some c2 => if is_whitespace_char c2 then (true, nl.2 + 1) else (false, p)
        | none => (false, p)
      else (false, p)
  | none => (false, p)

/-- The error taxonomy (`error.hpp`, spec section 7). -/
inductive Errc where
  | unbalanced_quote
  | bad_quoted_char
  | max_length_exceeded
  | bad_repeat_range
deriving DecidableEq

/-- `number_flag` (parser.hpp lines 157-159). -/
inductive number_flag where
  | unspecified
  | binary
  | decimal
  | hexadecimal
deriving DecidableEq

/-- One observer-callback invocation, recorded in call order.  Spans are pairs
of positions.  There is deliberately no `comment` event: `advance_comment` in
the source takes no observer at all (see claim C4). -/
inductive Event where
  | prose (a b : Nat)
  | firstNumber (f : number_flag) (a b : Nat)
  | nextNumber (f : number_flag) (a b : Nat)
  | lastNumber (f : number_flag) (a b : Nat)
  | quotedString (a b : Nat)
  | rulename (a b : Nat)
  | repeatEv (lo hi : Int)
  | error (ec : Errc) (near : Nat)
  | beginRepetition
  | endRepetition (ok : Bool)
  | beginConcatenation
  | endConcatenation (ok : Bool)
  | beginAlternation
  | endAlternation (ok : Bool)
  | beginGroup
  | endGroup (ok : Bool)
  | beginOption
  | endOption (ok : Bool)
  | beginRule (a b : Nat) (inc : Bool)
  | endRule (a b : Nat) (inc : Bool) (ok : Bool)
  | beginDocument
  | endDocument (ok : Bool)
deriving DecidableEq

/-- The observer: an arbitrary state `σ` with one response function per
callback of the observer contract (spec section 4.6).  Boolean-returning
callbacks may veto by answering `false`. -/
structure ObsFuns (σ : Type) where
  proseCb : σ → Nat → Nat → Bool × σ
  firstNumberCb : σ → number_flag → Nat → Nat → Bool × σ
  nextNumberCb : σ → number_flag → Nat → Nat → Bool × σ
  lastNumberCb : σ → number_flag → Nat → Nat → Bool × σ
  quotedStringCb : σ → Nat → Nat → Bool × σ
  maxQuotedStringLength : σ → Nat
  errorCb : σ → Errc → Nat → σ
  repeatCb : σ → Int → Int → Bool × σ
  rulenameCb : σ → Nat → Nat → Bool × σ
  beginRepetitionCb : σ → Bool × σ
  endRepetitionCb : σ → Bool → Bool × σ
  beginConcatenationCb : σ → Bool × σ
  endConcatenationCb : σ → Bool → Bool × σ
  beginAlternationCb : σ → Bool × σ
  endAlternationCb : σ → Bool → Bool × σ
  beginGroupCb : σ → Bool × σ
  endGroupCb : σ → Bool → Bool × σ
  beginOptionCb : σ → Bool × σ
  endOptionCb : σ → Bool → Bool × σ
  beginRuleCb : σ → Nat → Nat → Bool → Bool × σ
  endRuleCb : σ → Nat → Nat → Bool → Bool → Bool × σ
  beginDocumentCb : σ → Bool × σ
  endDocumentCb : σ → Bool → Bool × σ

/-- Parser state: the cursor handed to the advancer (the C++ `pos` reference),
the observer's state, and the trace of callback invocations so far. -/
structure PSt (σ : Type) where
  pos : Nat
  obs : σ
  evs : List Event
deriving DecidableEq

/-- Result of one advancer call: a boolean result with the final state, or the
out-of-bounds marker (the C++ dereferenced its end iterator: undefined
behaviour), or fuel exhaustion (an artefact of the embedding, never reached
with sufficient fuel). -/
inductive PRes (σ : Type) where
  | ok (r : Bool) (st : PSt σ)
  | oob
  | gas
deriving DecidableEq

/-- Replace the cursor of a state. -/
def setPos (st : PSt σ) (p : Nat) : PSt σ := ⟨p, st.obs, st.evs⟩

/-- Invoke a boolean observer callback: record the event, update the observer
state, return the callback's answer.  The cursor is untouched. -/
def doCb (st : PSt σ) (e : Event) (r : Bool × σ) : Bool × PSt σ :=
  (r.1, ⟨st.pos, r.2, st.evs ++ [e]⟩)

/-- Invoke the observer's `error` callback (which returns nothing). -/
def doErr (F : ObsFuns σ) (st : PSt σ) (ec : Errc) (near : Nat) : PSt σ :=
  ⟨st.pos, F.errorCb st.obs ec near, st.evs ++ [Event.error ec near]⟩

/-- `return success && compare_and_assign(pos, p);`: when `success` holds,
commit the local cursor `p` into the caller's cursor and report whether it
moved; otherwise fail leaving the caller's cursor as it is in `st`. -/
def commitCAA (st : PSt σ) (success : Bool) (p : Nat) : PRes σ :=
  if success then .ok (decide (st.pos ≠ p)) (setPos st p) else .ok false st

/-- `advance_prose` (parser.hpp lines 123-155). -/
def advance_prose (s : Input) (F : ObsFuns σ) (st : PSt σ) : PRes σ :=
  let p := st.pos
  if p = s.length then .ok false st else
  match s.get? p with
  | none => .oob
  | some c =>
    if c ≠ 60 then .ok false st else
    let p := p + 1
    let first_pos := p
    let p := p + runLen s p is_prose_value_char
    if p = s.length then .ok false st else
    match s.get? p with
    | none => .oob
    | some c2 =>
      if c2 ≠ 62 then .ok false st else
      let r := doCb st (.prose first_pos p) (F.proseCb st.obs first_pos p)
      commitCAA r.2 r.1 (p + 1)

/-- The `while (*p == '.') { ... }` loop of `advance_number` (parser.hpp lines
249-262) followed by the trailing `last_number` notification (line 265) and the
final commit (line 273).  `p` is the local cursor, `success` the accumulated
success flag; note that the loop guard and the `is_digit_func(*p)` test after
consuming the `'.'` both dereference the iterator without an end check. -/
def num_dots_loop (s : Input) (F : ObsFuns σ) (flag : number_flag)
    (isd : Nat → Bool) : Nat → Nat → Bool → PSt σ → PRes σ
  | 0, _, _, _ => .gas
  | fuel + 1, p, success, st =>
    match s.get? p with
    | none => .oob
    | some c =>
      if c = 46 then
        let p := p + 1
        match s.get? p with
        | none => .oob
        | some c2 =>
          if ¬ isd c2 then .ok false st
          else
            let first_pos := p
            let a := advanceRun s p isd
            if ¬ a.1 then .ok false st
            else if success then
              let r := doCb st (.nextNumber flag first_pos a.2)
                (F.nextNumberCb st.obs flag first_pos a.2)
              num_dots_loop s F flag isd fuel a.2 r.1 r.2
            else num_dots_loop s F flag isd fuel a.2 false st
      else
        if success then
          let r := doCb st (.lastNumber flag p p) (F.lastNumberCb st.obs flag p p)
          commitCAA r.2 r.1 p
        else commitCAA st false p

/-- The radix selection of `advance_number` (parser.hpp lines 205-219):
`'x'`, `'d'` or `'b'` choose the digit class and the number flag. -/
def num_radix (c : Nat) : Option (number_flag × (Nat → Bool)) :=
  if c = 120 then some (number_flag.hexadecimal, is_hexdigit_char)
  else if c = 100 then some (number_flag.decimal, is_digit_char)
  else if c = 98 then some (number_flag.binary, is_bit_char)
  else none

/-- The part of `advance_number` after the first digit run and its
`first_number` notification (parser.hpp lines 233-273): the optional `"-"`
range part, the `"."` sequence part, or the lone-run closing `last_number`,
followed by the final commit.  `p` is the local cursor after the first run,
`success` the accumulated success flag. -/
def advance_number_tail (s : Input) (F : ObsFuns σ) (flag : number_flag)
    (isd : Nat → Bool) (p : Nat) (success : Bool) (st : PSt σ) : PRes σ :=
  if p ≠ s.length then
    match s.get? p with
    | none => .oob
    | some c2 =>
      if c2 = 45 then
        let p2 := p + 1
        match s.get? p2 with
        | none => .oob
        | some c3 =>
          if ¬ isd c3 then .ok false st
          else
            let a2 := advanceRun s p2 isd
            if ¬ a2.1 then .ok false st
            else if success then
              let r2 := doCb st (.lastNumber flag p2 a2.2)
                (F.lastNumberCb st.obs flag p2 a2.2)
              commitCAA r2.2 r2.1 a2.2
            else commitCAA st false a2.2
      else if c2 = 46 then
        num_dots_loop s F flag isd (s.length + 1) p success st
      else
        if success then
          let r2 := doCb st (.lastNumber flag p p) (F.lastNumberCb st.obs flag p p)
          commitCAA r2.2 r2.1 p
        else commitCAA st false p
  else
    if success then
      let r2 := doCb st (.lastNumber flag p p) (F.lastNumberCb st.obs flag p p)
      commitCAA r2.2 r2.1 p
    else commitCAA st false p

/-- `advance_number` (parser.hpp lines 182-274). -/
def advance_number (s : Input) (F : ObsFuns σ) (st : PSt σ) : PRes σ :=
  let p := st.pos
  if p = s.length then .ok false st else
  match s.get? p with
  | none => .oob
  | some c =>
    if c ≠ 37 then .ok false st else
    let p := p + 1
    if p = s.length then .ok false st else
    match s.get? p with
    | none => .oob
    | some c1 =>
      match num_radix c1 with
      | none => .ok false st
      | some fd =>
        let flag := fd.1
        let isd := fd.2
        let p := p + 1
        if p = s.length then .ok false st else
        let first_pos := p
        let a := advanceRun s p isd
        if ¬ a.1 then .ok false st else
        let p := a.2
        let r1 := doCb st (.firstNumber flag first_pos p)
          (F.firstNumberCb st.obs flag first_pos p)
        advance_number_tail s F flag isd p r1.1 r1.2

/-- Outcome of the quoted-string scanning loop (parser.hpp lines 330-345). -/
inductive QsScan where
  | closed (q : Nat)
  | bad (q : Nat)
  | toolong
  | unterminated
deriving DecidableEq

/-- The scanning loop of `advance_quoted_string`: walk from `p` counting
`length`, stopping at a DQUOTE (`closed`), a character that is neither visible
nor space (`bad`), the length limit (`toolong`) or end of input
(`unterminated`).  All dereferences in this loop are guarded in the source. -/
def qs_scan (s : Input) (maxL : Nat) : Nat → Nat → Nat → QsScan
  | 0, _, _ => .unterminated
  | fuel + 1, p, len =>
    if p = s.length then .unterminated else
    match s.get? p with
    | none => .unterminated
    | some c =>
      if is_dquote_char c then .closed p
      else if ¬ (is_visible_char c || is_space_char c) then .bad p
      else if len = maxL then .toolong
      else qs_scan s maxL fuel (p + 1) (len + 1)

/-- `advance_quoted_string` (parser.hpp lines 299-358). -/
def advance_quoted_string (s : Input) (F : ObsFuns σ) (st : PSt σ) : PRes σ :=
  let p := st.pos
  if p = s.length then .ok false st else
  match s.get? p with
  | none => .oob
  | some c =>
    if ¬ is_dquote_char c then .ok false st else
    let p := p + 1
    let first_pos := p
    if p = s.length then .ok false (doErr F st .unbalanced_quote first_pos) else
    let max0 := F.maxQuotedStringLength st.obs
    let maxL := if max0 = 0 then 18446744073709551615 else max0
    match qs_scan s maxL (s.length + 1) p 0 with
    | .bad q => .ok false (doErr F st .bad_quoted_char q)
    | .toolong => .ok false (doErr F st .max_length_exceeded first_pos)
    | .unterminated => .ok false (doErr F st .unbalanced_quote first_pos)
    | .closed q =>
      let r := doCb st (.quotedString first_pos q) (F.quotedStringCb st.obs first_pos q)
      commitCAA r.2 r.1 (q + 1)

/-- Tail of `advance_repeat` (parser.hpp lines 428-453): given the spans
`first_from..last_from` and `first_to..last_to` collected by the do-while
block and the local cursor `p`, convert, check the range and notify. -/
def repeat_finish (s : Input) (F : ObsFuns σ) (st : PSt σ)
    (ff lf ft lt p : Nat) : PRes σ :=
  if p = st.pos then commitCAA st true p
  else
    let fromv := to_decimal_number ((s.drop ff).take (lf - ff))
    let tov := to_decimal_number ((s.drop ft).take (lt - ft))
    if ¬ fromv.2 then .ok false (doErr F st .bad_repeat_range ff)
    else if ¬ tov.2 then .ok false (doErr F st .bad_repeat_range ft)
    else
      let toval := if ft = lt then longMax else tov.1
      if fromv.1 > toval then .ok false (doErr F st .bad_repeat_range ff)
      else
        let r := doCb st (.repeatEv fromv.1 toval) (F.repeatCb st.obs fromv.1 toval)
        commitCAA r.2 r.1 p

/-- `advance_repeat` (parser.hpp lines 381-454).  Note that the exact-limit
spans (`first_to = first_from`, `last_to = last_from`) are only assigned when
the digit run reaches the end of input (line 405); otherwise they stay at
`pos`, which `repeat_finish` then turns into an unbounded upper limit. -/
def advance_repeat (s : Input) (F : ObsFuns σ) (st : PSt σ) : PRes σ :=
  let pos := st.pos
  if pos = s.length then .ok false st else
  match s.get? pos with
  | none => .oob
  | some c0 =>
    if is_digit_char c0 then
      let p := pos + runLen s pos is_digit_char
      let last_from := p
      if p = s.length then repeat_finish s F st pos last_from pos last_from p
      else
        match s.get? p with
        | none => .oob
        | some c1 =>
          if c1 = 42 then
            let p := p + 1
            if p = s.length then repeat_finish s F st pos last_from pos pos p
            else
              match s.get? p with
              | none => .oob
              | some c2 =>
                if is_digit_char c2 then
                  let first_to := p
                  let p := p + runLen s p is_digit_char
                  repeat_finish s F st pos last_from first_to p p
                else repeat_finish s F st pos last_from pos pos p
          else repeat_finish s F st pos last_from pos pos p
    else if c0 = 42 then
      let p := pos + 1
      if p = s.length then repeat_finish s F st pos pos pos pos p
      else
        match s.get? p with
        | none => .oob
        | some c2 =>
          if is_digit_char c2 then
            let first_to := p
            let p := p + runLen s p is_digit_char
            repeat_finish s F st pos pos first_to p p
          else repeat_finish s F st pos pos pos pos p
    else commitCAA st true pos

/-- `advance_comment` (parser.hpp lines 470-495).  It takes no observer and
invokes no callback; the body span it computes into `first_pos` is unused. -/
def advance_comment (s : Input) (st : PSt σ) : PRes σ :=
  let p := st.pos
  if p = s.length then .ok false st else
  match s.get? p with
  | none => .oob
  | some c =>
    if c ≠ 59 then .ok false st else
    let p := p + 1
    let p := p + runLen s p (fun c => !(is_cr_char c || is_lf_char c))
    let p := if p ≠ s.length then (advance_newline s p).2 else p
    .ok (decide (st.pos ≠ p)) (setPos st p)

/-- `advance_comment_newline` (parser.hpp lines 508-513): newline first, then
comment. -/
def advance_comment_newline (s : Input) (st : PSt σ) : PRes σ :=
  let nl := advance_newline s st.pos
  if nl.1 then .ok true (setPos st nl.2)
  else advance_comment s st

/-- `advance_comment_whitespace` (parser.hpp lines 526-551): one `c-wsp`, i.e.
a WSP or a comment-or-newline followed by a WSP. -/
def advance_comment_whitespace (s : Input) (st : PSt σ) : PRes σ :=
  if st.pos = s.length then .ok false st else
  match s.get? st.pos with
  | none => .oob
  | some c =>
    if is_whitespace_char c then commitCAA st true (st.pos + 1)
    else
      match advance_comment_newline s st with
      | .ok true st1 =>
        if st1.pos = s.length then .ok false st
        else
          match s.get? st1.pos with
          | none => .oob
          | some c2 =>
            if ¬ is_whitespace_char c2 then .ok false st
            else commitCAA st true (st1.pos + 1)
      | .ok false _ => .ok false st
      | .oob => .oob
      | .gas => .gas

/-- A `while (advance_comment_whitespace(p, last)) ;` loop (`*c-wsp`). -/
def skip_cws (s : Input) : Nat → PSt σ → PRes σ
  | 0, _ => .gas
  | fuel + 1, st =>
    match advance_comment_whitespace s st with
    | .ok true st1 => skip_cws s fuel st1
    | .ok false st1 => .ok true st1
    | .oob => .oob
    | .gas => .gas

/-- A `while (advance_linear_whitespace(p, last)) ;` loop (parser.hpp line 1087). -/
def skip_lws (s : Input) : Nat → Nat → Nat
  | 0, p => p
  | fuel + 1, p =>
    let a := advance_linear_whitespace s p
    if a.1 then skip_lws s fuel a.2 else p

/-- `advance_rulename_helper` (parser.hpp lines 556-582).  Returns
`(result, new cursor, rulename begin, rulename end)`; `none` when the initial
unguarded dereference of `*p` falls at or past the end position. -/
def advance_rulename_helper (s : Input) (pos : Nat) : Option (Bool × Nat × Nat × Nat) :=
  match s.get? pos with
  | none => none
  | some c =>
    if ¬ is_alpha_char c then some (false, pos, pos, pos)
    else
      let p := pos + 1 + runLen s (pos + 1)
        (fun c => is_alpha_char c || is_digit_char c || c = 45)
      some (decide (pos ≠ p), p, pos, p)

/-- `advance_rulename` (parser.hpp lines 600-618).  Note that the helper
commits the cursor before the `rulename` callback is consulted. -/
def advance_rulename (s : Input) (F : ObsFuns σ) (st : PSt σ) : PRes σ :=
  if st.pos = s.length then .ok false st else
  match advance_rulename_helper s st.pos with
  | none => .oob
  | some (ok1, p1, rf, rl) =>
    if ¬ ok1 then .ok false (setPos st p1)
    else
      let st1 := setPos st p1
      let r := doCb st1 (.rulename rf rl) (F.rulenameCb st1.obs rf rl)
      .ok r.1 r.2

/-- `advance_defined_as` (parser.hpp lines 962-999).  The second component is
the `is_incremental_alternatives` out-parameter. -/
def advance_defined_as (s : Input) (fuel : Nat) (st : PSt σ) : PRes σ × Bool :=
  if st.pos = s.length then (.ok false st, false) else
  match skip_cws s fuel st with
  | .ok _ st1 =>
    if st1.pos = s.length then (.ok false (setPos st1 st.pos), false)
    else
      match s.get? st1.pos with
      | none => (.oob, false)
      | some c =>
        if c = 61 then
          let p := st1.pos + 1
          let ip :=
            if p ≠ s.length then
              match s.get? p with
              | some c2 => if c2 = 47 then (true, p + 1) else (false, p)
              | none => (false, p)
            else (false, p)
          match skip_cws s fuel (setPos st1 ip.2) with
          | .ok _ st2 => (commitCAA (setPos st2 st.pos) true st2.pos, ip.1)
          | .oob => (.oob, false)
          | .gas => (.gas, false)
        else (.ok false (setPos st1 st.pos), false)
  | .oob => (.oob, false)
  | .gas => (.gas, false)

/-- Modelled from the spec (section 4.2): the loop of
`advance_repetition_by_range` from `generator.hpp` (not under `src/`).
Apply `f` repeatedly, counting successes; when `f` fails, succeed iff the
count lies in `[low, high]`, committing the cursor reached after the last
successful application, and otherwise roll the cursor back to `pos0`.
Observer state and emitted events persist either way. -/
def rep_range_go (low high : Int) (f : PSt σ → PRes σ) (pos0 : Nat) :
    Nat → PSt σ → Int → PRes σ
  | 0, _, _ => .gas
  | fuel + 1, st, count =>
    match f st with
    | .ok true st1 => rep_range_go low high f pos0 fuel st1 (count + 1)
    | .ok false st1 =>
      if low ≤ count ∧ count ≤ high then .ok true (setPos st1 st.pos)
      else .ok false (setPos st1 pos0)
    | .oob => .oob
    | .gas => .gas

/-- Modelled from the spec (section 4.2): `advance_repetition_by_range` from
`generator.hpp` (not under `src/`), with commit-on-success and rollback. -/
def advance_repetition_by_range (low high : Int) (f : PSt σ → PRes σ)
    (fuel : Nat) (st : PSt σ) : PRes σ :=
  rep_range_go low high f st.pos fuel st 0

mutual

/-- `advance_element` (parser.hpp lines 647-660): ordered choice
`rulename / group / option / num-val / char-val / prose-val`, each alternative
applied to the caller's cursor in turn. -/
def advance_element (s : Input) (F : ObsFuns σ) : Nat → PSt σ → PRes σ
  | 0, _ => .gas
  | fuel + 1, st =>
    if st.pos = s.length then .ok false st else
    match advance_rulename s F st with
    | .ok true st1 => .ok true st1
    | .ok false st1 =>
      match advance_group s F fuel st1 with
      | .ok true st2 => .ok true st2
      | .ok false st2 =>
        match advance_option s F fuel st2 with
        | .ok true st3 => .ok true st3
        | .ok false st3 =>
          match advance_number s F st3 with
          | .ok true st4 => .ok true st4
          | .ok false st4 =>
            match advance_quoted_string s F st4 with
            | .ok true st5 => .ok true st5
            | .ok false st5 => advance_prose s F st5
            | .oob => .oob
            | .gas => .gas
          | .oob => .oob
          | .gas => .gas
        | .oob => .oob
        | .gas => .gas
      | .oob => .oob
      | .gas => .gas
    | .oob => .oob
    | .gas => .gas

/-- `advance_repetition` (parser.hpp lines 681-694): `[repeat] element`,
bracketed by `begin_repetition` / `end_repetition(success)`.  `advance_repeat`
and `advance_element` act directly on the caller's cursor. -/
def advance_repetition (s : Input) (F : ObsFuns σ) : Nat → PSt σ → PRes σ
  | 0, _ => .gas
  | fuel + 1, st =>
    if st.pos = s.length then .ok false st else
    let b := doCb st .beginRepetition (F.beginRepetitionCb st.obs)
    match advance_repeat s F b.2 with
    | .ok _ st2 =>
      if b.1 then
        match advance_element s F fuel st2 with
        | .ok r st3 =>
          let e := doCb st3 (.endRepetition r) (F.endRepetitionCb st3.obs r)
          .ok (e.1 && r) e.2
        | .oob => .oob
        | .gas => .gas
      else
        let e := doCb st2 (.endRepetition false) (F.endRepetitionCb st2.obs false)
        .ok (e.1 && false) e.2
    | .oob => .oob
    | .gas => .gas

/-- The lambda of `advance_concatenation` (parser.hpp lines 729-745): one
`1*c-wsp repetition` step, committed only as a whole. -/
def concat_step (s : Input) (F : ObsFuns σ) : Nat → PSt σ → PRes σ
  | 0, _ => .gas
  | fuel + 1, st =>
    match advance_repetition_by_range 1 intMax (fun st => advance_comment_whitespace s st) fuel st with
    | .ok true st1 =>
      match advance_repetition s F fuel st1 with
      | .ok true st2 => commitCAA (setPos st2 st.pos) true st2.pos
      | .ok false st2 => .ok false (setPos st2 st.pos)
      | .oob => .oob
      | .gas => .gas
    | .ok false st1 => .ok false (setPos st1 st.pos)
    | .oob => .oob
    | .gas => .gas

/-- `advance_concatenation` (parser.hpp lines 715-750):
`repetition *(1*c-wsp repetition)`, bracketed by `begin_concatenation` /
`end_concatenation(success)`. -/
def advance_concatenation (s : Input) (F : ObsFuns σ) : Nat → PSt σ → PRes σ
  | 0, _ => .gas
  | fuel + 1, st =>
    if st.pos = s.length then .ok false st else
    let b := doCb st .beginConcatenation (F.beginConcatenationCb st.obs)
    if b.1 then
      match advance_repetition s F fuel b.2 with
      | .ok true st2 =>
        match advance_repetition_by_range 0 intMax (concat_step s F fuel) fuel st2 with
        | .ok r2 st3 =>
          let e := doCb st3 (.endConcatenation r2) (F.endConcatenationCb st3.obs r2)
          .ok (e.1 && r2) e.2
        | .oob => .oob
        | .gas => .gas
      | .ok false st2 =>
        let e := doCb st2 (.endConcatenation false) (F.endConcatenationCb st2.obs false)
        .ok (e.1 && false) e.2
      | .oob => .oob
      | .gas => .gas
    else
      let e := doCb b.2 (.endConcatenation false) (F.endConcatenationCb b.2.obs false)
      .ok (e.1 && false) e.2

/-- The lambda of `advance_alternation` (parser.hpp lines 787-813): one
`*c-wsp "/" *c-wsp concatenation` step, committed only as a whole. -/
def alt_step (s : Input) (F : ObsFuns σ) : Nat → PSt σ → PRes σ
  | 0, _ => .gas
  | fuel + 1, st =>
    match skip_cws s fuel st with
    | .ok _ st1 =>
      if st1.pos = s.length then .ok false (setPos st1 st.pos)
      else
        match s.get? st1.pos with
        | none => .oob
        | some c =>
          if c ≠ 47 then .ok false (setPos st1 st.pos)
          else
            let p := st1.pos + 1
            if p = s.length then .ok false (setPos st1 st.pos)
            else
              match skip_cws s fuel (setPos st1 p) with
              | .ok _ st2 =>
                match advance_concatenation s F fuel st2 with
                | .ok true st3 => commitCAA (setPos st3 st.pos) true st3.pos
                | .ok false st3 => .ok false (setPos st3 st.pos)
                | .oob => .oob
                | .gas => .gas
              | .oob => .oob
              | .gas => .gas
    | .oob => .oob
    | .gas => .gas

/-- `advance_alternation` (parser.hpp lines 770-818):
`concatenation *(*c-wsp "/" *c-wsp concatenation)`, bracketed by
`begin_alternation` / `end_alternation(success)`. -/
def advance_alternation (s : Input) (F : ObsFuns σ) : Nat → PSt σ → PRes σ
  | 0, _ => .gas
  | fuel + 1, st =>
    if st.pos = s.length then .ok false st else
    let b := doCb st .beginAlternation (F.beginAlternationCb st.obs)
    if b.1 then
      match advance_concatenation s F fuel b.2 with
      | .ok true st2 =>
        match advance_repetition_by_range 0 intMax (alt_step s F fuel) fuel st2 with
        | .ok r2 st3 =>
          let e := doCb st3 (.endAlternation r2) (F.endAlternationCb st3.obs r2)
          .ok (e.1 && r2) e.2
        | .oob => .oob
        | .gas => .gas
      | .ok false st2 =>
        let e := doCb st2 (.endAlternation false) (F.endAlternationCb st2.obs false)
        .ok (e.1 && false) e.2
      | .oob => .oob
      | .gas => .gas
    else
      let e := doCb b.2 (.endAlternation false) (F.endAlternationCb b.2.obs false)
      .ok (e.1 && false) e.2

/-- `advance_group_or_option` (parser.hpp lines 826-868).  The final test of
the closing bracket (line 862) dereferences the iterator without an end
check. -/
def advance_group_or_option (s : Input) (F : ObsFuns σ) : Nat → PSt σ → PRes σ
  | 0, _ => .gas
  | fuel + 1, st =>
    if st.pos = s.length then .ok false st else
    match s.get? st.pos with
    | none => .oob
    | some c =>
      match (if c = 40 then some 41 else if c = 91 then some 93 else none) with
      | none => .ok false st
      | some closing =>
        match skip_cws s fuel (setPos st (st.pos + 1)) with
        | .ok _ st1 =>
          if st1.pos = s.length then .ok false (setPos st1 st.pos)
          else
            match advance_alternation s F fuel st1 with
            | .ok true st2 =>
              match skip_cws s fuel st2 with
              | .ok _ st3 =>
                match s.get? st3.pos with
                | none => .oob
                | some c2 =>
                  if c2 ≠ closing then .ok false (setPos st3 st.pos)
                  else commitCAA (setPos st3 st.pos) true (st3.pos + 1)
              | .oob => .oob
              | .gas => .gas
            | .ok false st2 => .ok false (setPos st2 st.pos)
            | .oob => .oob
            | .gas => .gas
        | .oob => .oob
        | .gas => .gas

/-- `advance_group` (parser.hpp lines 888-907): peek for `'('`, then bracket
`advance_group_or_option` with `begin_group` / `end_group(success)`; the
helper acts directly on the caller's cursor. -/
def advance_group (s : Input) (F : ObsFuns σ) : Nat → PSt σ → PRes σ
  | 0, _ => .gas
  | fuel + 1, st =>
    if st.pos = s.length then .ok false st else
    match s.get? st.pos with
    | none => .oob
    | some c =>
      if c ≠ 40 then .ok false st else
      let b := doCb st .beginGroup (F.beginGroupCb st.obs)
      if b.1 then
        match advance_group_or_option s F fuel b.2 with
        | .ok r st2 =>
          let e := doCb st2 (.endGroup r) (F.endGroupCb st2.obs r)
          .ok (e.1 && r) e.2
        | .oob => .oob
        | .gas => .gas
      else
        let e := doCb b.2 (.endGroup false) (F.endGroupCb b.2.obs false)
        .ok (e.1 && false) e.2

/-- `advance_option` (parser.hpp lines 927-946): like `advance_group` with
`'['` and `begin_option` / `end_option(success)`. -/
def advance_option (s : Input) (F : ObsFuns σ) : Nat → PSt σ → PRes σ
  | 0, _ => .gas
  | fuel + 1, st =>
    if st.pos = s.length then .ok false st else
    match s.get? st.pos with
    | none => .oob
    | some c =>
      if c ≠ 91 then .ok false st else
      let b := doCb st .beginOption (F.beginOptionCb st.obs)
      if b.1 then
        match advance_group_or_option s F fuel b.2 with
        | .ok r st2 =>
          let e := doCb st2 (.endOption r) (F.endOptionCb st2.obs r)
          .ok (e.1 && r) e.2
        | .oob => .oob
        | .gas => .gas
      else
        let e := doCb b.2 (.endOption false) (F.endOptionCb b.2.obs false)
        .ok (e.1 && false) e.2

end

/-- `advance_elements` (parser.hpp lines 1016-1030): `alternation *c-wsp`,
recognized on a local cursor and committed only as a whole. -/
def advance_elements (s : Input) (F : ObsFuns σ) (fuel : Nat) (st : PSt σ) : PRes σ :=
  match advance_alternation s F fuel st with
  | .ok true st1 =>
    match skip_cws s fuel st1 with
    | .ok _ st2 => commitCAA (setPos st2 st.pos) true st2.pos
    | .oob => .oob
    | .gas => .gas
  | .ok false st1 => .ok false (setPos st1 st.pos)
  | .oob => .oob
  | .gas => .gas

/-- The part of `advance_rule` from `begin_rule` onward (parser.hpp lines
1080-1094): elements, the optional comment-or-newline, the linear-whitespace
continuation loop, `end_rule` and the final commit to the caller's cursor
position `origPos`. -/
def advance_rule_finish (s : Input) (F : ObsFuns σ) (fuel : Nat)
    (rf rl : Nat) (inc : Bool) (origPos : Nat) (st1 : PSt σ) : PRes σ :=
  let b := doCb st1 (.beginRule rf rl inc) (F.beginRuleCb st1.obs rf rl inc)
  match (if b.1 then advance_elements s F fuel b.2 else .ok false b.2) with
  | .ok succ1 st2 =>
    match (if st2.pos ≠ s.length then
            (if succ1 then advance_comment_newline s st2 else .ok false st2)
          else .ok succ1 st2) with
    | .ok succ2 st3 =>
      let succf := if st2.pos ≠ s.length then succ1 && succ2 else succ1
      let p4 := if succf then skip_lws s (s.length + 1) st3.pos else st3.pos
      let st4 := setPos st3 p4
      let e := doCb st4 (.endRule rf rl inc succf)
        (F.endRuleCb st4.obs rf rl inc succf)
      commitCAA (setPos e.2 origPos) (e.1 && succf) p4
    | .oob => .oob
    | .gas => .gas
  | .oob => .oob
  | .gas => .gas

/-- `advance_rule` (parser.hpp lines 1060-1095). -/
def advance_rule (s : Input) (F : ObsFuns σ) (fuel : Nat) (st : PSt σ) : PRes σ :=
  if st.pos = s.length then .ok false st else
  match advance_rulename_helper s st.pos with
  | none => .oob
  | some (ok1, p1, rf, rl) =>
    if ¬ ok1 then .ok false st
    else
      match advance_defined_as s fuel (setPos st p1) with
      | (.ok da st1, inc) =>
        if ¬ da then .ok false (setPos st1 st.pos)
        else advance_rule_finish s F fuel rf rl inc st.pos st1
      | (.oob, _) => .oob
      | (.gas, _) => .gas

/-- The lambda of `advance_rulelist` (parser.hpp lines 1123-1141): one
`rule / (*c-wsp c-nl)` step, committed only as a whole. -/
def rulelist_step (s : Input) (F : ObsFuns σ) (fuel : Nat) (st : PSt σ) : PRes σ :=
  match advance_rule s F fuel st with
  | .ok true st1 => commitCAA (setPos st1 st.pos) true st1.pos
  | .ok false st1 =>
    match skip_cws s fuel (setPos st1 st.pos) with
    | .ok _ st2 =>
      if st2.pos ≠ s.length then
        match advance_comment_newline s st2 with
        | .ok true st3 => commitCAA (setPos st3 st.pos) true st3.pos
        | .ok false st3 => .ok false (setPos st3 st.pos)
        | .oob => .oob
        | .gas => .gas
      else commitCAA (setPos st2 st.pos) true st2.pos
    | .oob => .oob
    | .gas => .gas
  | .oob => .oob
  | .gas => .gas

/-- `advance_rulelist` (parser.hpp lines 1116-1146): `1*( rule / (*c-wsp c-nl) )`,
bracketed by `begin_document` / `end_document(success)`. -/
def advance_rulelist (s : Input) (F : ObsFuns σ) (fuel : Nat) (st : PSt σ) : PRes σ :=
  let b := doCb st .beginDocument (F.beginDocumentCb st.obs)
  if b.1 then
    match advance_repetition_by_range 1 intMax (rulelist_step s F fuel) fuel b.2 with
    | .ok r2 st2 =>
      let e := doCb st2 (.endDocument r2) (F.endDocumentCb st2.obs r2)
      .ok (e.1 && r2) e.2
    | .oob => .oob
    | .gas => .gas
  else
    let e := doCb b.2 (.endDocument false) (F.endDocumentCb b.2.obs false)
    .ok (e.1 && false) e.2

/-- The accepting observer: stateless, every boolean callback answers `true`,
no quoted-string length limit. -/
def obsAll : ObsFuns Unit where
  proseCb := fun _ _ _ => (true, ())
  firstNumberCb := fun _ _ _ _ => (true, ())
  nextNumberCb := fun _ _ _ _ => (true, ())
  lastNumberCb := fun _ _ _ _ => (true, ())
  quotedStringCb := fun _ _ _ => (true, ())
  maxQuotedStringLength := fun _ => 0
  errorCb := fun _ _ _ => ()
  repeatCb := fun _ _ _ => (true, ())
  rulenameCb := fun _ _ _ => (true, ())
  beginRepetitionCb := fun _ => (true, ())
  endRepetitionCb := fun _ _ => (true, ())
  beginConcatenationCb := fun _ => (true, ())
  endConcatenationCb := fun _ _ => (true, ())
  beginAlternationCb := fun _ => (true, ())
  endAlternationCb := fun _ _ => (true, ())
  beginGroupCb := fun _ => (true, ())
  endGroupCb := fun _ _ => (true, ())
  beginOptionCb := fun _ => (true, ())
  endOptionCb := fun _ _ => (true, ())
  beginRuleCb := fun _ _ _ _ => (true, ())
  endRuleCb := fun _ _ _ _ _ => (true, ())
  beginDocumentCb := fun _ => (true, ())
  endDocumentCb := fun _ _ => (true, ())

/-- An observer identical to `obsAll` except that `end_repetition` vetoes. -/
def obsVetoEndRep : ObsFuns Unit :=
  { obsAll with endRepetitionCb := fun _ _ => (false, ()) }

/-- The initial parser state at cursor position 0 with an empty trace. -/
def st0 : PSt Unit := ⟨0, (), []⟩

/-- Does the trace contain an `error` event with the given code? -/
def hasError (ec : Errc) (evs : List Event) : Bool :=
  evs.any fun e => match e with
    | .error ec2 _ => ec2 = ec
    | _ => false

/-- Does the trace contain any `error` event? -/
def hasAnyError (evs : List Event) : Bool :=
  evs.any fun e => match e with
    | .error _ _ => true
    | _ => false

/-- For a digit byte, the unsigned difference is the digit value. -/
theorem decDigitOf_digit {c : Nat} (h : is_digit_char c = true) :
    decDigitOf c = c - 48 ∧ decDigitOf c ≤ 9 := by
  have hb : 48 ≤ c ∧ c ≤ 57 := by simpa [is_digit_char] using h
  have he : c + 4294967248 = (c - 48) + 4294967296 := by omega
  have : decDigitOf c = c - 48 := by
    unfold decDigitOf
    rw [he, Nat.add_mod_right, Nat.mod_eq_of_lt (by omega)]
  omega

/-- For a non-digit byte, the unsigned difference exceeds 9
(values below `'0'` wrap around to huge unsigned values). -/
theorem decDigitOf_nondigit {c : Nat} (hc : c ≤ 255) (h : is_digit_char c = false) :
    decDigitOf c > 9 := by
  have hb : ¬ (48 ≤ c ∧ c ≤ 57) := by simpa [is_digit_char] using h
  rcases Nat.lt_or_ge c 48 with hlt | hge
  · have : decDigitOf c = c + 4294967248 := by
      unfold decDigitOf
      exact Nat.mod_eq_of_lt (by omega)
    omega
  · have he : c + 4294967248 = (c - 48) + 4294967296 := by omega
    have : decDigitOf c = c - 48 := by
      unfold decDigitOf
      rw [he, Nat.add_mod_right, Nat.mod_eq_of_lt (by omega)]
    omega

/-- 64-bit wrap-around is the identity on values that fit. -/
theorem wrap64_id {x : Int} (h0 : 0 ≤ x) (h1 : x < 9223372036854775808) :
    wrap64 x = x := by
  have h := Int.emod_eq_of_lt
    (show (0 : Int) ≤ x + 9223372036854775808 by omega)
    (show x + 9223372036854775808 < 18446744073709551616 by omega)
  unfold wrap64
  rw [show Int.emod (x + 9223372036854775808) 18446744073709551616 =
      (x + 9223372036854775808) % 18446744073709551616 from rfl, h]
  omega

/-- The cutoff guard of `to_decimal_number` passes exactly when the would-be
accumulated value stays at or below `2^63` (note: not `2^63 - 1`; the guard is
one off because `cutoff_limit` is derived from `LONG_MIN`, see claim C9). -/
theorem cutoff_guard_iff {r : Int} {d : Nat} (hr : 0 ≤ r) (hd : d ≤ 9) :
    (r < cutoff_value ∨ (r = cutoff_value ∧ (d : Int) ≤ cutoff_limit)) ↔
      r * 10 + (d : Int) ≤ 9223372036854775808 := by
  unfold cutoff_value cutoff_limit
  omega

/-- Digit accumulation with the same fold as `to_decimal_go`, starting at `r`. -/
def accVal (r : Int) (p : List Nat) : Int :=
  p.foldl (fun a c => a * 10 + ((c : Int) - 48)) r

theorem accVal_nil (r : Int) : accVal r [] = r := rfl

theorem accVal_cons (r : Int) (c : Nat) (p : List Nat) :
    accVal r (c :: p) = accVal (r * 10 + ((c : Int) - 48)) p := rfl

/-- Running `to_decimal_go` over a digit prefix whose accumulated value is
guaranteed to stay within `2^63` just folds the digits into the accumulator
and continues with the rest of the span. -/
theorem to_decimal_go_digits :
    ∀ (p : List Nat) (r : Int) (rest : List Nat),
      (∀ d ∈ p, is_digit_char d = true) → 0 ≤ r →
      (r + 1) * 10 ^ p.length ≤ 9223372036854775808 →
      to_decimal_go (p ++ rest) r = to_decimal_go rest (accVal r p) ∧
        0 ≤ accVal r p ∧ accVal r p + 1 ≤ (r + 1) * 10 ^ p.length := by
  intro p
  induction p with
  | nil =>
    intro r rest _ hr _
    refine ⟨rfl, hr, ?_⟩
    simp [accVal]
  | cons d p ih =>
    intro r rest hdig hr hbound
    have hd : is_digit_char d = true := hdig d (List.mem_cons_self d p)
    obtain ⟨hdv, hdle⟩ := decDigitOf_digit hd
    have hd48 : 48 ≤ d ∧ d ≤ 57 := by simpa [is_digit_char] using hd
    have hP : (0 : Int) < 10 ^ p.length := by positivity
    have hpow1 : (10 : Int) ^ (d :: p).length = 10 ^ p.length * 10 := pow_succ 10 p.length
    have hbound' : (r + 1) * (10 ^ p.length * 10) ≤ 9223372036854775808 := by
      rw [hpow1] at hbound; exact hbound
    have hdcast : (decDigitOf d : Int) = (d : Int) - 48 := by
      rw [hdv]; omega
    have h10P : (10 : Int) ≤ 10 ^ p.length * 10 := by omega
    have hmul : (r + 1) * 10 ≤ (r + 1) * (10 ^ p.length * 10) :=
      mul_le_mul_of_nonneg_left h10P (by omega)
    have hsum : r * 10 + ((d : Int) - 48) + 1 ≤ (r + 1) * 10 := by omega
    have hsmall : r * 10 + ((d : Int) - 48) + 1 ≤ 9223372036854775808 :=
      le_trans hsum (le_trans hmul hbound')
    have hr' : (0 : Int) ≤ r * 10 + ((d : Int) - 48) := by omega
    have hnext : (r * 10 + ((d : Int) - 48) + 1) * 10 ^ p.length ≤ 9223372036854775808 := by
      calc (r * 10 + ((d : Int) - 48) + 1) * 10 ^ p.length
          ≤ (r + 1) * 10 * 10 ^ p.length :=
            mul_le_mul_of_nonneg_right hsum (le_of_lt hP)
        _ = (r + 1) * (10 ^ p.length * 10) := by ring
        _ ≤ 9223372036854775808 := hbound'
    have hwrap : wrap64 (r * 10 + (decDigitOf d : Int)) = r * 10 + ((d : Int) - 48) := by
      rw [hdcast]
      exact wrap64_id hr' (by omega)
    have hrest := ih (r * 10 + ((d : Int) - 48)) rest
      (fun x hx => hdig x (List.mem_cons_of_mem d hx)) hr' hnext
    have hg : r < cutoff_value ∨ (r = cutoff_value ∧ (decDigitOf d : Int) ≤ cutoff_limit) := by
      rw [hdcast, show ((d : Int) - 48) = ((d - 48 : Nat) : Int) by omega]
      rw [cutoff_guard_iff hr (show d - 48 ≤ 9 by omega)]
      omega
    refine ⟨?_, ?_, ?_⟩
    · show to_decimal_go (d :: (p ++ rest)) r = _
      rw [to_decimal_go, if_neg (by omega), if_pos hg, hwrap, accVal_cons]
      exact hrest.1
    · rw [accVal_cons]; exact hrest.2.1
    · rw [accVal_cons]
      calc accVal (r * 10 + ((d : Int) - 48)) p + 1
          ≤ (r * 10 + ((d : Int) - 48) + 1) * 10 ^ p.length := hrest.2.2
        _ ≤ (r + 1) * 10 * 10 ^ p.length := by
            apply mul_le_mul_of_nonneg_right (by omega) (le_of_lt hP)
        _ = (r + 1) * 10 ^ (d :: p).length := by rw [hpow1]; ring

/-- `10 ^ n` fits below `2^63` for `n ≤ 18`. -/
theorem ten_pow_le_of_le_18 {n : Nat} (h : n ≤ 18) :
    ((0 : Int) + 1) * 10 ^ n ≤ 9223372036854775808 := by
  have h1 : (10 : Nat) ^ n ≤ 10 ^ 18 := Nat.pow_le_pow_right (by norm_num) h
  have h2 : (((10 : Nat) ^ n : Nat) : Int) = (10 : Int) ^ n := by push_cast; rfl
  have h3 : (10 : Nat) ^ 18 = 1000000000000000000 := by norm_num
  omega

/-- C6, counterexample: a span of twenty `'9'`s followed by the non-digit
`'x'` makes `to_decimal_number` report the overflow, `(LONG_MAX, false)`,
before it ever reaches the non-digit, refuting the claim that every span
containing a non-digit yields `(0, false)`. -/
theorem C6_counterexample :
    to_decimal_number (List.replicate 20 57 ++ [120]) = (longMax, false) ∧
      (longMax, false) ≠ ((0 : Int), false) := by
  constructor
  · decide
  · decide

/-- C6 (amended): `to_decimal_number` yields `(0, true)` on the empty span,
`(v, true)` on any span of at most 18 decimal digits denoting `v`,
`(LONG_MAX, false)` on twenty `'9'`s, and `(0, false)` on every span whose
first non-digit byte is preceded by at most 18 digits (if the overflow guard
trips before a non-digit is reached the result is `(LONG_MAX, false)`
instead). -/
theorem C6_to_decimal_number_spec :
    to_decimal_number [] = ((0 : Int), true) ∧
    (∀ l : List Nat, (∀ c ∈ l, is_digit_char c = true) → l.length ≤ 18 →
      to_decimal_number l = (specDecimalValue l, true)) ∧
    to_decimal_number (List.replicate 20 57) = (longMax, false) ∧
    (∀ (q t : List Nat) (c : Nat), (∀ d ∈ q, is_digit_char d = true) →
      q.length ≤ 18 → c ≤ 255 → is_digit_char c = false →
      to_decimal_number (q ++ c :: t) = ((0 : Int), false)) := by
  refine ⟨rfl, ?_, by decide, ?_⟩
  · intro l hdig hlen
    have h := to_decimal_go_digits l 0 [] hdig (le_refl 0) (ten_pow_le_of_le_18 hlen)
    have h1 : to_decimal_go l 0 = (accVal 0 l, true) := by
      have h2 := h.1
      rwa [List.append_nil] at h2
    exact h1
  · intro q t c hdig hlen hc hnd
    have h := to_decimal_go_digits q 0 (c :: t) hdig (le_refl 0) (ten_pow_le_of_le_18 hlen)
    show to_decimal_go (q ++ c :: t) 0 = ((0 : Int), false)
    rw [h.1]
    have hgt := decDigitOf_nondigit hc hnd
    simp only [to_decimal_go, hgt, if_pos]

/-- C6 witness: the amended digit-span clause applied at the concrete span
`"12"`. -/
theorem C6_to_decimal_number_spec_witness :
    to_decimal_number [49, 50] = (specDecimalValue [49, 50], true) :=
  C6_to_decimal_number_spec.2.1 [49, 50] (by decide) (by decide)

/-- C9: the 19-digit span `"9223372036854775808"` denotes `LONG_MAX + 1`,
yet the cutoff guard of `to_decimal_number` (derived from `LONG_MIN`, whose
last digit is 8) admits the final accumulation step; the signed accumulation
overflows (undefined behaviour, two's-complement wrap to `LONG_MIN`) and the
function returns `ok = true` instead of `(LONG_MAX, false)`. -/
theorem C9_overflow_undetected :
    specDecimalValue [57, 50, 50, 51, 51, 55, 50, 48, 51, 54, 56, 53, 52,
      55, 55, 53, 56, 48, 56] = longMax + 1 ∧
    to_decimal_number [57, 50, 50, 51, 51, 55, 50, 48, 51, 54, 56, 53, 52,
      55, 55, 53, 56, 48, 56] = (longMin, true) ∧
    longMin < 0 := by
  refine ⟨by decide, by decide, by decide⟩

/-- The bytes of `"3DIGIT\r\n"`. -/
def inputRepeatBare : Input := [51, 68, 73, 71, 73, 84, 13, 10]

/-- C2: on `"3DIGIT\r\n"` the repeat production is the bare digit run `3` not
followed by `'*'`; `advance_repeat` succeeds but invokes `repeat(3, LONG_MAX)`,
not the claimed `repeat(3, 3)`: the exact-limit spans are only assigned when
the digit run reaches end of input (parser.hpp line 405), so mid-input the
upper-bound span stays empty and line 443 turns it into `LONG_MAX`.  This
contradicts the function's own comment (lines 374-376: `first_from ==
first_to && first_from != last_from -> is exact limit`) and spec scenario S3. -/
theorem C2_bare_repeat_emits_unbounded :
    advance_repeat inputRepeatBare obsAll st0 =
      .ok true ⟨1, (), [Event.repeatEv 3 longMax]⟩ ∧
    [Event.repeatEv 3 longMax].contains (Event.repeatEv 3 3) = false ∧
    advance_repeat [51] obsAll st0 = .ok true ⟨1, (), [Event.repeatEv 3 3]⟩ := by
  refine ⟨by decide, by decide, by decide⟩

/-- C4: `advance_comment` recognizes the comment `";ab\r\n"` (it returns
`true` and consumes all five bytes) but invokes no callback whatsoever — the
function takes no observer (parser.hpp line 470-471, contradicting its own
`@param ctx` documentation at line 461), and the `first_pos` span it computes
is dead.  The emitted trace stays empty. -/
theorem C4_comment_invokes_no_callback :
    advance_comment [59, 97, 98, 13, 10] (st0 : PSt Unit) =
      .ok true ⟨5, (), []⟩ := by
  decide

/-- The bytes of `"r = \"unterminated\r\n"`. -/
def inputC5 : Input :=
  [114, 32, 61, 32, 34, 117, 110, 116, 101, 114, 109, 105, 110, 97, 116, 101, 100, 13, 10]

/-- The event trace `advance_rulelist` produces on `inputC5` with the
accepting observer. -/
def evsC5 : List Event :=
  [Event.beginDocument, Event.beginRule 0 1 false, Event.beginAlternation,
   Event.beginConcatenation, Event.beginRepetition,
   Event.error Errc.bad_quoted_char 17, Event.endRepetition false,
   Event.endConcatenation false, Event.endAlternation false,
   Event.endRule 0 1 false false, Event.endDocument false]

/-- C5, counterexample: on `"r = \"unterminated\r\n"` the entry point does
return `false`, but the error delivered is `bad_quoted_char` (the `CR` inside
the quoted string fails the `%x20-21 / %x23-7E` character test at parser.hpp
line 331 before the end-of-input test at line 347 can run), not the claimed
`unbalanced_quote`. -/
theorem C5_counterexample :
    advance_rulelist inputC5 obsAll 40 st0 = .ok false ⟨0, (), evsC5⟩ ∧
      hasError .unbalanced_quote evsC5 = false := by
  refine ⟨by decide, by decide⟩

/-- C5 (amended): on `"r = \"unterminated\r\n"` `advance_rulelist` returns
`false` and the observer's error callback is invoked with code
`bad_quoted_char` (at the offending `CR`, position 17). -/
theorem C5_rulelist_reports_bad_quoted_char :
    advance_rulelist inputC5 obsAll 40 st0 = .ok false ⟨0, (), evsC5⟩ ∧
      hasError .bad_quoted_char evsC5 = true := by
  refine ⟨by decide, by decide⟩

/-- C8: the code does dereference the cursor at the end-of-input position.
After consuming `'-'` in `advance_number` (line 238), after a digit run in the
`'.'` loop (line 249) and after the run following a `'.'` (line 253), and when
testing the closing bracket in `advance_group_or_option` (line 862), `*p` is
read without a preceding `p != last` check; the inputs `"%d1-"`, `"%d1.2"`
and `"(a"` each drive a read at the end position (modelled as `PRes.oob`). -/
theorem C8_end_dereferences :
    advance_number [37, 100, 49, 45] obsAll st0 = .oob ∧
    advance_number [37, 100, 49, 46, 50] obsAll st0 = .oob ∧
    advance_group_or_option [40, 97] obsAll 20 st0 = .oob := by
  refine ⟨by decide, by decide, by decide⟩

/-- C1, counterexample: `advance_repetition` on `"3*)"` with the accepting
observer: `advance_repeat` is applied to the caller's cursor and commits the
two bytes `"3*"`; the following element fails on `')'`, so the call returns
failure with no error emitted — yet the cursor ends at 2, not at its pre-call
value 0. -/
theorem C1_counterexample :
    advance_repetition [51, 42, 41] obsAll 20 st0 =
      .ok false ⟨2, (), [Event.beginRepetition, Event.repeatEv 3 longMax,
        Event.endRepetition false]⟩ ∧
    hasAnyError [Event.beginRepetition, Event.repeatEv 3 longMax,
        Event.endRepetition false] = false ∧
    (2 : Nat) ≠ 0 := by
  refine ⟨by decide, by decide, by decide⟩

/-- C3, counterexample: with an observer whose `end_repetition` vetoes,
`advance_repetition` on `"a"` fails (the production fails), yet the single
`end_repetition` event carries `success = true` — the flag records the
computed success before the veto, so "the end event carries `success=false`
when the production failed" does not hold for every observer. -/
theorem C3_counterexample :
    advance_repetition [97] obsVetoEndRep 20 st0 =
      .ok false ⟨1, (), [Event.beginRepetition, Event.rulename 0 1,
        Event.endRepetition true]⟩ ∧
    [Event.beginRepetition, Event.rulename 0 1,
        Event.endRepetition true].contains (Event.endRepetition false) = false := by
  refine ⟨by decide, by decide⟩

/-- C10: `advance_comment` succeeds on a comment that reaches end of input
with no line terminator: for any byte sequence starting with `';'` whose
remaining bytes contain neither CR nor LF, it returns `true` with the cursor
at the end position (`advance_newline` is skipped because `p == last`,
parser.hpp lines 491-492). -/
theorem C10_comment_to_eof {σ : Type} (st : PSt σ) (rest : List Nat)
    (hp : st.pos = 0)
    (h : ∀ c ∈ rest, is_cr_char c = false ∧ is_lf_char c = false) :
    advance_comment (59 :: rest) st = .ok true (setPos st (rest.length + 1)) := by
  have hrun : runLen (59 :: rest) 1 (fun c => !(is_cr_char c || is_lf_char c)) = rest.length := by
    unfold runLen
    have hdrop : (59 :: rest).drop 1 = rest := rfl
    rw [hdrop]
    rw [List.takeWhile_eq_self_iff.mpr]
    intro x hx
    have hc := h x hx
    simp [hc.1, hc.2]
  unfold advance_comment
  rw [hp]
  have hne : ¬ ((0 : Nat) = (59 :: rest).length) := by simp
  simp only [if_neg hne, List.get?_cons_zero, ne_eq, Nat.zero_add, hrun, List.length_cons]
  rw [Nat.add_comm 1 rest.length]
  simp

/-- C10 witness: the theorem applied to the concrete input `";a"`. -/
theorem C10_comment_to_eof_witness :
    advance_comment [59, 97] (st0 : PSt Unit) = .ok true (setPos st0 2) :=
  C10_comment_to_eof st0 [97] rfl (by decide)

/-- Bytes of a sequence of `"." 1*DIGIT` groups. -/
def dotsBytes (runs : List (List Nat)) : List Nat :=
  (runs.map (fun r => 46 :: r)).join

theorem dotsBytes_nil : dotsBytes [] = [] := rfl

theorem dotsBytes_cons (r : List Nat) (rs : List (List Nat)) :
    dotsBytes (r :: rs) = 46 :: (r ++ dotsBytes rs) := by
  simp [dotsBytes]

/-- The `next_number` events the `'.'` loop emits for the given runs starting
at `p` (the position of the first `'.'`), closed by the final `last_number`
carrying the empty span at the end position. -/
def specNextEvents (flag : number_flag) : List (List Nat) → Nat → List Event
  | [], p => [Event.lastNumber flag p p]
  | r :: rs, p =>
    Event.nextNumber flag (p + 1) (p + 1 + r.length) ::
      specNextEvents flag rs (p + 1 + r.length)

/-- `takeWhile` stops exactly at the first unsatisfying element. -/
theorem takeWhile_middle (f : Nat → Bool) :
    ∀ (u : List Nat) (c0 : Nat) (v : List Nat),
      (∀ c ∈ u, f c = true) → f c0 = false →
      (u ++ c0 :: v).takeWhile f = u := by
  intro u
  induction u with
  | nil =>
    intro c0 v _ hc0
    simp [List.takeWhile_cons, hc0]
  | cons a u ih =>
    intro c0 v hu hc0
    have ha := hu a (List.mem_cons_self a u)
    simp only [List.cons_append, List.takeWhile_cons, ha, if_true]
    rw [ih c0 v (fun c hc => hu c (List.mem_cons_of_mem a hc)) hc0]

/-- Reading the byte under the cursor through the shape of the dropped
suffix. -/
theorem get?_of_drop_eq {s : Input} {p : Nat} {c : Nat} {l : List Nat}
    (h : s.drop p = c :: l) : s.get? p = some c := by
  have h0 : (s.drop p).get? 0 = s.get? (p + 0) := List.get?_drop s p 0
  rw [h] at h0
  simpa using h0.symm

/-- A character-class run length read off the shape of the dropped suffix. -/
theorem runLen_of_drop {f : Nat → Bool} {s : Input} {p : Nat} {u : List Nat}
    {c0 : Nat} {v : List Nat} (h : s.drop p = u ++ c0 :: v)
    (hu : ∀ c ∈ u, f c = true) (hc0 : f c0 = false) :
    runLen s p f = u.length := by
  unfold runLen
  rw [h, takeWhile_middle f u c0 v hu hc0]

theorem drop_add (s : Input) (p k : Nat) : s.drop (p + k) = (s.drop p).drop k :=
  (List.drop_drop k p s).symm

/-- Exit step of the `'.'` loop: the byte under the cursor is not `'.'`, so
the loop notifies `last_number` with the empty span and commits. -/
theorem num_dots_loop_exit (s : Input) (flag : number_flag) (isd : Nat → Bool)
    {p c0 : Nat} (f pos0 : Nat) (evs : List Event)
    (hget : s.get? p = some c0) (hne : c0 ≠ 46) :
    num_dots_loop s obsAll flag isd (f + 1) p true ⟨pos0, (), evs⟩ =
      .ok (decide (pos0 ≠ p))
        ⟨p, (), evs ++ [Event.lastNumber flag p p]⟩ := by
  simp only [num_dots_loop, hget, if_neg hne]
  simp [doCb, commitCAA, setPos, obsAll]

/-- One iteration of the `'.'` loop: a `'.'` followed by a nonempty digit run
of length `k` emits `next_number` over the run and continues behind it. -/
theorem num_dots_loop_step (s : Input) (flag : number_flag) (isd : Nat → Bool)
    {p a k : Nat} (f pos0 : Nat) (evs : List Event)
    (hget : s.get? p = some 46) (hget2 : s.get? (p + 1) = some a)
    (ha : isd a = true) (hrun : runLen s (p + 1) isd = k) (hk : k ≠ 0) :
    num_dots_loop s obsAll flag isd (f + 1) p true ⟨pos0, (), evs⟩ =
      num_dots_loop s obsAll flag isd f (p + 1 + k) true
        ⟨pos0, (), evs ++ [Event.nextNumber flag (p + 1) (p + 1 + k)]⟩ := by
  simp only [num_dots_loop, hget, if_pos rfl, hget2, advanceRun, hrun]
  simp [ha, hk, doCb, obsAll]

/-- Behaviour of the `'.'` loop of `advance_number` with the accepting
observer on well-formed input: one `next_number` per run, then the empty-span
`last_number`, then the commit. -/
theorem num_dots_loop_spec (s : Input) (flag : number_flag) (isd : Nat → Bool)
    (h46 : isd 46 = false) :
    ∀ (runs : List (List Nat)) (c0 : Nat) (ts : List Nat) (p : Nat)
      (pos0 : Nat) (evs : List Event) (fuel : Nat),
      s.drop p = dotsBytes runs ++ c0 :: ts →
      (∀ r ∈ runs, r ≠ [] ∧ ∀ c ∈ r, isd c = true) →
      isd c0 = false → c0 ≠ 46 →
      fuel ≥ runs.length + 1 →
      num_dots_loop s obsAll flag isd fuel p true ⟨pos0, (), evs⟩ =
        .ok (decide (pos0 ≠ p + (dotsBytes runs).length))
          ⟨p + (dotsBytes runs).length, (), evs ++ specNextEvents flag runs p⟩ := by
  intro runs
  induction runs with
  | nil =>
    intro c0 ts p pos0 evs fuel hdrop hruns hc0 hc0ne hfuel
    obtain ⟨f, rfl⟩ : ∃ f, fuel = f + 1 := ⟨fuel - 1, by omega⟩
    rw [dotsBytes_nil, List.nil_append] at hdrop
    rw [num_dots_loop_exit s flag isd f pos0 evs (get?_of_drop_eq hdrop) hc0ne]
    simp [specNextEvents, dotsBytes_nil]
  | cons r rs ih =>
    intro c0 ts p pos0 evs fuel hdrop hruns hc0 hc0ne hfuel
    obtain ⟨f, rfl⟩ : ∃ f, fuel = f + 1 := ⟨fuel - 1, by omega⟩
    obtain ⟨hrne, hrdig⟩ := hruns r (List.mem_cons_self r rs)
    obtain ⟨a, r', rfl⟩ : ∃ a r', r = a :: r' := by
      cases r with
      | nil => exact absurd rfl hrne
      | cons a r' => exact ⟨a, r', rfl⟩
    rw [dotsBytes_cons, List.cons_append, List.append_assoc] at hdrop
    have hdrop1 : s.drop (p + 1) = (a :: r') ++ (dotsBytes rs ++ c0 :: ts) := by
      rw [drop_add, hdrop]
      rfl
    have hbound : ∃ b rest2, dotsBytes rs ++ c0 :: ts = b :: rest2 ∧ isd b = false := by
      cases rs with
      | nil => exact ⟨c0, ts, by rw [dotsBytes_nil, List.nil_append], hc0⟩
      | cons r2 rs' =>
        refine ⟨46, r2 ++ dotsBytes rs' ++ c0 :: ts, ?_, h46⟩
        rw [dotsBytes_cons]
        simp [List.append_assoc]
    obtain ⟨b, rest2, hbeq, hbfalse⟩ := hbound
    have hdrop1b : s.drop (p + 1) = (a :: r') ++ b :: rest2 := by
      rw [hdrop1, hbeq]
    have hget1 : s.get? (p + 1) = some a := get?_of_drop_eq hdrop1b
    have hrun : runLen s (p + 1) isd = (a :: r').length :=
      runLen_of_drop hdrop1b hrdig hbfalse
    have hadig : isd a = true := hrdig a (List.mem_cons_self a r')
    have hdrop2 : s.drop (p + 1 + (a :: r').length) = dotsBytes rs ++ c0 :: ts := by
      rw [drop_add, hdrop1, List.drop_left]
    have hih := ih c0 ts (p + 1 + (a :: r').length) pos0
      (evs ++ [Event.nextNumber flag (p + 1) (p + 1 + (a :: r').length)]) f
      hdrop2 (fun x hx => hruns x (List.mem_cons_of_mem _ hx)) hc0 hc0ne
      (by simp only [List.length_cons] at hfuel ⊢; omega)
    have hq : p + (dotsBytes ((a :: r') :: rs)).length
        = p + 1 + (a :: r').length + (dotsBytes rs).length := by
      rw [dotsBytes_cons]
      simp only [List.length_cons, List.length_append]
      omega
    rw [num_dots_loop_step s flag isd f pos0 evs (get?_of_drop_eq hdrop) hget1
      hadig hrun (by simp)]
    rw [hih, hq]
    simp only [specNextEvents]
    congr 1
    simp


theorem dotsBytes_length_ge : ∀ runs : List (List Nat),
    runs.length ≤ (dotsBytes runs).length := by
  intro runs
  induction runs with
  | nil => simp [dotsBytes_nil]
  | cons r rs ih =>
    rw [dotsBytes_cons]
    simp only [List.length_cons, List.length_append]
    omega

theorem doCb_first_obsAll (u : Unit) (p : Nat) (evs : List Event)
    (flag : number_flag) (a b : Nat) :
    doCb ⟨p, (), evs⟩ (Event.firstNumber flag a b) (obsAll.firstNumberCb u flag a b) =
      (true, ⟨p, (), evs ++ [Event.firstNumber flag a b]⟩) := rfl

theorem doCb_last_obsAll (u : Unit) (p : Nat) (evs : List Event)
    (flag : number_flag) (a b : Nat) :
    doCb ⟨p, (), evs⟩ (Event.lastNumber flag a b) (obsAll.lastNumberCb u flag a b) =
      (true, ⟨p, (), evs ++ [Event.lastNumber flag a b]⟩) := rfl

theorem commitCAA_true_eq {σ : Type} (st : PSt σ) (p : Nat) :
    commitCAA st true p = .ok (decide (st.pos ≠ p)) (setPos st p) := by
  simp [commitCAA]

/-- The bytes of `"r = %d48.49.50\r\n"`. -/
def inputC7 : Input :=
  [114, 32, 61, 32, 37, 100, 52, 56, 46, 52, 57, 46, 53, 48, 13, 10]

/-- C7: parsing the num-val of `"r = %d48.49.50\r\n"` (cursor at the `'%'`,
position 4) emits `first_number(decimal, "48")`, `next_number(decimal, "49")`,
`next_number(decimal, "50")` and `last_number(decimal, empty)` in this order;
and in general a `'.'`-separated num-val `"%"` radix run `("." run)*`
followed by a byte that is neither a digit of the radix nor `'.'` nor `'-'`
emits `first_number` for the first run, `next_number` for each subsequent run
and a final `last_number` with the empty span at the end position. -/
theorem C7_dotted_number_events :
    advance_number inputC7 obsAll ⟨4, (), []⟩ =
      .ok true ⟨14, (), [Event.firstNumber .decimal 6 8,
        Event.nextNumber .decimal 9 11, Event.nextNumber .decimal 12 14,
        Event.lastNumber .decimal 14 14]⟩ ∧
    (∀ (b2 : Nat) (flag : number_flag) (isd : Nat → Bool) (r0 : List Nat)
        (runs : List (List Nat)) (c0 : Nat) (ts : List Nat),
      num_radix b2 = some (flag, isd) →
      r0 ≠ [] → (∀ c ∈ r0, isd c = true) →
      (∀ r ∈ runs, r ≠ [] ∧ ∀ c ∈ r, isd c = true) →
      isd c0 = false → c0 ≠ 46 → c0 ≠ 45 →
      advance_number (37 :: b2 :: (r0 ++ (dotsBytes runs ++ c0 :: ts))) obsAll
          ⟨0, (), []⟩ =
        .ok true ⟨2 + r0.length + (dotsBytes runs).length, (),
          Event.firstNumber flag 2 (2 + r0.length) ::
            specNextEvents flag runs (2 + r0.length)⟩) := by
  constructor
  · decide
  · intro b2 flag isd r0 runs c0 ts hradix hr0ne hr0dig hrunsdig hc0 hc046 hc045
    set s : Input := 37 :: b2 :: (r0 ++ (dotsBytes runs ++ c0 :: ts)) with hs
    have hisd : isd 46 = false ∧ isd 45 = false := by
      unfold num_radix at hradix
      split_ifs at hradix <;>
        · simp only [Option.some.injEq, Prod.mk.injEq] at hradix
          rw [← hradix.2]
          constructor <;> decide
    have hslen : s.length = r0.length + (dotsBytes runs).length + ts.length + 3 := by
      rw [hs]
      simp [List.length_append]
      omega
    have hr0len : r0.length ≠ 0 := by
      intro h
      exact hr0ne (List.eq_nil_of_length_eq_zero h)
    have hdrop2 : s.drop 2 = r0 ++ (dotsBytes runs ++ c0 :: ts) := rfl
    have hbound : ∃ b rest2, dotsBytes runs ++ c0 :: ts = b :: rest2 ∧
        isd b = false := by
      cases runs with
      | nil => exact ⟨c0, ts, by rw [dotsBytes_nil, List.nil_append], hc0⟩
      | cons r2 rs' =>
        refine ⟨46, r2 ++ dotsBytes rs' ++ c0 :: ts, ?_, hisd.1⟩
        rw [dotsBytes_cons]
        simp [List.append_assoc]
    obtain ⟨b, rest2, hbeq, hbfalse⟩ := hbound
    have hdrop2b : s.drop 2 = r0 ++ b :: rest2 := by rw [hdrop2, hbeq]
    have hrun0 : runLen s 2 isd = r0.length := runLen_of_drop hdrop2b hr0dig hbfalse
    have hdropP : s.drop (2 + r0.length) = dotsBytes runs ++ c0 :: ts := by
      rw [drop_add, hdrop2, List.drop_left]
    have hgetP : s.get? (2 + r0.length) = some b := by
      apply get?_of_drop_eq
      rw [hdropP, hbeq]
    have hPne : 2 + r0.length ≠ s.length := by omega
    have hget0 : s.get? 0 = some 37 := rfl
    have hget1 : s.get? 1 = some b2 := rfl
    have hdec0 : decide (r0.length ≠ 0) = true := decide_eq_true hr0len
    show advance_number s obsAll ⟨0, (), []⟩ = _
    simp only [advance_number]
    rw [if_neg (by omega)]
    rw [hget0]
    simp only [Nat.zero_add]
    rw [if_neg (show ¬ ((37 : Nat) ≠ 37) by simp)]
    rw [if_neg (show ¬ ((1 : Nat) = s.length) by omega)]
    rw [hget1]
    simp only [hradix]
    rw [if_neg (show ¬ ((1 + 1 : Nat) = s.length) by omega)]
    rw [show (1 + 1 : Nat) = 2 from rfl]
    simp only [advanceRun, hrun0, hdec0]
    rw [if_neg (by simp)]
    rw [doCb_first_obsAll]
    simp only [advance_number_tail]
    rw [if_pos hPne, hgetP]
    simp only [List.nil_append]
    cases runs with
    | nil =>
      rw [dotsBytes_nil, List.nil_append] at hbeq
      have hbc0 : b = c0 := by
        have h2 := hbeq.symm
        simp only [List.cons.injEq] at h2
        exact h2.1
      subst hbc0
      simp only [hc045, hc046, if_false, if_true]
      rw [doCb_last_obsAll]
      simp only []
      rw [commitCAA_true_eq]
      have hdecP : decide ((0 : Nat) ≠ 2 + r0.length) = true :=
        decide_eq_true (by omega)
      rw [hdecP]
      simp [setPos, specNextEvents, dotsBytes_nil]
    | cons r2 rs' =>
      have hb46 : b = 46 := by
        rw [dotsBytes_cons, List.cons_append] at hbeq
        have h2 := hbeq.symm
        simp only [List.cons.injEq] at h2
        exact h2.1
      subst hb46
      simp only [show ((46 : Nat) = 45) = False by simp,
        show ((46 : Nat) = 46) = True by simp, if_false, if_true]
      rw [num_dots_loop_spec s flag isd hisd.1 (r2 :: rs') c0 ts
        (2 + r0.length) 0 [Event.firstNumber flag 2 (2 + r0.length)]
        (s.length + 1) hdropP hrunsdig hc0 hc046
        (by have := dotsBytes_length_ge (r2 :: rs'); omega)]
      have hdecP : decide ((0 : Nat) ≠ 2 + r0.length + (dotsBytes (r2 :: rs')).length) = true :=
        decide_eq_true (by omega)
      rw [hdecP]
      simp

/-- C7 witness: the general clause applied at the concrete num-val `"%d1.2 "`. -/
theorem C7_dotted_number_events_witness :
    advance_number (37 :: 100 :: ([49] ++ (dotsBytes [[50]] ++ 32 :: []))) obsAll
        ⟨0, (), []⟩ =
      .ok true ⟨2 + [49].length + (dotsBytes [[50]]).length, (),
        Event.firstNumber .decimal 2 (2 + [49].length) ::
          specNextEvents .decimal [[50]] (2 + [49].length)⟩ :=
  C7_dotted_number_events.2 100 .decimal is_digit_char [49] [[50]] 32 []
    rfl (by decide) (by decide) (by decide) (by decide) (by decide) (by decide)

/-- A failed commit leaves the cursor where the state had it. -/
theorem commitCAA_ok_false {σ : Type} {st st' : PSt σ} {b : Bool} {p : Nat}
    (h : commitCAA st b p = .ok false st') : st'.pos = st.pos := by
  unfold commitCAA at h
  split at h
  · cases hd : decide (st.pos ≠ p) with
    | false =>
      rw [hd] at h
      injection h with h1 h2
      have hp := of_decide_eq_false hd
      rw [← h2]
      simp only [setPos]
      omega
    | true =>
      rw [hd] at h
      injection h with h1 h2
      cases h1
  · injection h with h1 h2
    rw [← h2]

/-- Rollback for `advance_prose`: failure leaves the cursor unchanged. -/
theorem advance_prose_false_pos {σ : Type} (F : ObsFuns σ) (s : Input)
    (st st' : PSt σ) (h : advance_prose s F st = .ok false st') :
    st'.pos = st.pos := by
  unfold advance_prose at h
  try simp only [] at h
  repeat' split at h
  all_goals first
    | (have h2 := commitCAA_ok_false h; exact h2)
    | (cases h; rfl)
    | cases h

/-- Rollback for the `'.'` loop of `advance_number`. -/
theorem num_dots_loop_false_pos {σ : Type} (F : ObsFuns σ) (s : Input)
    (flag : number_flag) (isd : Nat → Bool) :
    ∀ (fuel p : Nat) (b : Bool) (st st' : PSt σ),
      num_dots_loop s F flag isd fuel p b st = .ok false st' →
      st'.pos = st.pos := by
  intro fuel
  induction fuel with
  | zero => intro p b st st' h; cases h
  | succ f ih =>
    intro p b st st' h
    unfold num_dots_loop at h
    try simp only [] at h
    repeat' split at h
    all_goals first
      | (have h2 := commitCAA_ok_false h; exact h2)
      | (have h2 := ih _ _ _ _ h; exact h2)
      | (cases h; rfl)
      | cases h

/-- Rollback for the tail of `advance_number`. -/
theorem advance_number_tail_false_pos {σ : Type} (F : ObsFuns σ) (s : Input)
    (flag : number_flag) (isd : Nat → Bool) (p : Nat) (b : Bool)
    (st st' : PSt σ) (h : advance_number_tail s F flag isd p b st = .ok false st') :
    st'.pos = st.pos := by
  unfold advance_number_tail at h
  try simp only [] at h
  repeat' split at h
  all_goals first
    | (have h2 := commitCAA_ok_false h; exact h2)
    | (have h2 := num_dots_loop_false_pos F s _ _ _ _ _ _ _ h; exact h2)
    | (cases h; rfl)
    | cases h

/-- Rollback for `advance_number`. -/
theorem advance_number_false_pos {σ : Type} (F : ObsFuns σ) (s : Input)
    (st st' : PSt σ) (h : advance_number s F st = .ok false st') :
    st'.pos = st.pos := by
  unfold advance_number at h
  try simp only [] at h
  repeat' split at h
  all_goals first
    | (have h2 := commitCAA_ok_false h; exact h2)
    | (have h2 := advance_number_tail_false_pos F s _ _ _ _ _ _ h; exact h2)
    | (cases h; rfl)
    | cases h

/-- Rollback for `advance_quoted_string`. -/
theorem advance_quoted_string_false_pos {σ : Type} (F : ObsFuns σ) (s : Input)
    (st st' : PSt σ) (h : advance_quoted_string s F st = .ok false st') :
    st'.pos = st.pos := by
  unfold advance_quoted_string at h
  try simp only [] at h
  repeat' split at h
  all_goals first
    | (have h2 := commitCAA_ok_false h; exact h2)
    | (cases h; rfl)
    | cases h

/-- Rollback for the tail of `advance_repeat`. -/
theorem repeat_finish_false_pos {σ : Type} (F : ObsFuns σ) (s : Input)
    (st st' : PSt σ) (ff lf ft lt p : Nat)
    (h : repeat_finish s F st ff lf ft lt p = .ok false st') :
    st'.pos = st.pos := by
  unfold repeat_finish at h
  try simp only [] at h
  repeat' split at h
  all_goals first
    | (have h2 := commitCAA_ok_false h; exact h2)
    | (cases h; rfl)
    | cases h

/-- Rollback for `advance_repeat`. -/
theorem advance_repeat_false_pos {σ : Type} (F : ObsFuns σ) (s : Input)
    (st st' : PSt σ) (h : advance_repeat s F st = .ok false st') :
    st'.pos = st.pos := by
  unfold advance_repeat at h
  try simp only [] at h
  repeat' split at h
  all_goals first
    | (have h2 := commitCAA_ok_false h; exact h2)
    | (have h2 := repeat_finish_false_pos F s _ _ _ _ _ _ _ h; exact h2)
    | (cases h; rfl)
    | cases h

/-- Rollback for `advance_defined_as` (the first component is the result,
the second the incremental-alternatives flag). -/
theorem advance_defined_as_false_pos {σ : Type} (s : Input) (fuel : Nat)
    (st st' : PSt σ) (inc : Bool)
    (h : advance_defined_as s fuel st = (.ok false st', inc)) :
    st'.pos = st.pos := by
  unfold advance_defined_as at h
  try simp only [] at h
  repeat' split at h
  all_goals
    injection h with h1 h2
  all_goals first
    | (have h3 := commitCAA_ok_false h1; exact h3)
    | (cases h1; rfl)
    | cases h1

/-- Rollback for `advance_elements`. -/
theorem advance_elements_false_pos {σ : Type} (F : ObsFuns σ) (s : Input)
    (fuel : Nat) (st st' : PSt σ)
    (h : advance_elements s F fuel st = .ok false st') :
    st'.pos = st.pos := by
  unfold advance_elements at h
  try simp only [] at h
  repeat' split at h
  all_goals first
    | (have h2 := commitCAA_ok_false h; exact h2)
    | (cases h; rfl)
    | cases h

/-- Rollback for the tail of `advance_rule`: failure restores `origPos`. -/
theorem advance_rule_finish_false_pos {σ : Type} (F : ObsFuns σ) (s : Input)
    (fuel : Nat) (rf rl : Nat) (inc : Bool) (origPos : Nat)
    (st1 st' : PSt σ)
    (h : advance_rule_finish s F fuel rf rl inc origPos st1 = .ok false st') :
    st'.pos = origPos := by
  unfold advance_rule_finish at h
  try simp only [] at h
  repeat' split at h
  all_goals first
    | (have h2 := commitCAA_ok_false h; exact h2)
    | (cases h; rfl)
    | cases h

/-- Rollback for `advance_rule`. -/
theorem advance_rule_false_pos {σ : Type} (F : ObsFuns σ) (s : Input)
    (fuel : Nat) (st st' : PSt σ)
    (h : advance_rule s F fuel st = .ok false st') :
    st'.pos = st.pos := by
  unfold advance_rule at h
  try simp only [] at h
  repeat' split at h
  all_goals first
    | (have h2 := commitCAA_ok_false h; exact h2)
    | (have h2 := advance_rule_finish_false_pos F s _ _ _ _ _ _ _ h; exact h2)
    | (cases h; rfl)
    | cases h

/-- Rollback for `advance_group_or_option`. -/
theorem advance_group_or_option_false_pos {σ : Type} (F : ObsFuns σ) (s : Input)
    (fuel : Nat) (st st' : PSt σ)
    (h : advance_group_or_option s F fuel st = .ok false st') :
    st'.pos = st.pos := by
  cases fuel with
  | zero => cases h
  | succ f =>
    unfold advance_group_or_option at h
    try simp only [] at h
    repeat' split at h
    all_goals first
      | (have h2 := commitCAA_ok_false h; exact h2)
      | (cases h; rfl)
      | cases h

/-- C1 (amended): the rollback guarantee — if the call returns failure then
the caller's cursor equals its pre-call value — holds for every observer and
every input for `advance_prose`, `advance_number`, `advance_quoted_string`,
`advance_repeat`, `advance_defined_as`, `advance_elements`, `advance_rule`
and the helper `advance_group_or_option` (for these it holds even when an
error was emitted).  It does not hold for `advance_rulename`,
`advance_element`, `advance_repetition`, `advance_concatenation`,
`advance_alternation`, `advance_group`, `advance_option` and
`advance_rulelist`: those apply sub-advancers directly to the caller's cursor
(or commit before the observer's end callback or rulename callback may veto),
as the counterexample shows for `advance_repetition` with an all-accepting
observer. -/
theorem C1_rollback_amended {σ : Type} (F : ObsFuns σ) (s : Input) (fuel : Nat)
    (st : PSt σ) :
    (∀ st', advance_prose s F st = .ok false st' → st'.pos = st.pos) ∧
    (∀ st', advance_number s F st = .ok false st' → st'.pos = st.pos) ∧
    (∀ st', advance_quoted_string s F st = .ok false st' → st'.pos = st.pos) ∧
    (∀ st', advance_repeat s F st = .ok false st' → st'.pos = st.pos) ∧
    (∀ st' inc, advance_defined_as s fuel st = (.ok false st', inc) →
      st'.pos = st.pos) ∧
    (∀ st', advance_elements s F fuel st = .ok false st' → st'.pos = st.pos) ∧
    (∀ st', advance_rule s F fuel st = .ok false st' → st'.pos = st.pos) ∧
    (∀ st', advance_group_or_option s F fuel st = .ok false st' → st'.pos = st.pos) :=
  ⟨fun st' h => advance_prose_false_pos F s st st' h,
   fun st' h => advance_number_false_pos F s st st' h,
   fun st' h => advance_quoted_string_false_pos F s st st' h,
   fun st' h => advance_repeat_false_pos F s st st' h,
   fun st' inc h => advance_defined_as_false_pos s fuel st st' inc h,
   fun st' h => advance_elements_false_pos F s fuel st st' h,
   fun st' h => advance_rule_false_pos F s fuel st st' h,
   fun st' h => advance_group_or_option_false_pos F s fuel st st' h⟩

/-- C1 witness: the amended rollback applied to a concrete failing
`advance_prose` run (an unterminated `"<"`). -/
theorem C1_rollback_amended_witness :
    advance_prose [60] obsAll st0 = .ok false st0 ∧ st0.pos = st0.pos :=
  ⟨by decide, (C1_rollback_amended obsAll [60] 5 st0).1 st0 (by decide)⟩

/-- Bracket kinds for the begin/end event pairs; the rule bracket also carries
the name span and incremental flag, which the source passes identically to
`begin_rule` and `end_rule`. -/
inductive BKind where
  | rep
  | conc
  | alt
  | grp
  | opt
  | rul (a b : Nat) (inc : Bool)
  | doc
deriving DecidableEq

/-- Classify an event as a begin bracket, an end bracket, or a leaf. -/
def evTok : Event → Option (Bool × BKind)
  | .beginRepetition => some (true, .rep)
  | .endRepetition _ => some (false, .rep)
  | .beginConcatenation => some (true, .conc)
  | .endConcatenation _ => some (false, .conc)
  | .beginAlternation => some (true, .alt)
  | .endAlternation _ => some (false, .alt)
  | .beginGroup => some (true, .grp)
  | .endGroup _ => some (false, .grp)
  | .beginOption => some (true, .opt)
  | .endOption _ => some (false, .opt)
  | .beginRule a b i => some (true, .rul a b i)
  | .endRule a b i _ => some (false, .rul a b i)
  | .beginDocument => some (true, .doc)
  | .endDocument _ => some (false, .doc)
  | _ => none

/-- One step of the bracket checker: push begins, pop matching ends, ignore
leaves; `none` signals a mismatched or unmatched end. -/
def balStep (stk : List BKind) (e : Event) : Option (List BKind) :=
  match evTok e with
  | none => some stk
  | some (true, k) => some (k :: stk)
  | some (false, k) =>
    match stk with
    | [] => none
    | k' :: rest => if k = k' then some rest else none

/-- Run the bracket checker over an event list from a given stack. -/
def balRun : List Event → List BKind → Option (List BKind)
  | [], stk => some stk
  | e :: l, stk =>
    match balStep stk e with
    | none => none
    | some stk' => balRun l stk'

/-- A properly bracketed event segment: from the empty stack the checker
consumes the whole list and ends on the empty stack.  This captures at once
that every `begin_*` has exactly one matching `end_*` of the same kind, that
the multisets of begins and ends agree, and that brackets nest LIFO. -/
def Seg (l : List Event) : Prop := balRun l [] = some []

theorem Seg_nil : Seg ([] : List Event) := rfl

theorem Seg_leaf {e : Event} (h : evTok e = none) : Seg [e] := by
  have hstep : balStep [] e = some [] := by
    unfold balStep
    rw [h]
  show balRun [e] [] = some []
  unfold balRun
  rw [hstep]
  rfl

theorem balRun_cons (e : Event) (l : List Event) (stk : List BKind) :
    balRun (e :: l) stk =
      match balStep stk e with
      | none => none
      | some stk' => balRun l stk' := rfl

theorem balRun_append_some : ∀ (l1 l2 : List Event) (stk s : List BKind),
    balRun l1 stk = some s → balRun (l1 ++ l2) stk = balRun l2 s := by
  intro l1
  induction l1 with
  | nil =>
    intro l2 stk s h
    have h' : stk = s := by
      have h2 : some stk = some s := h
      injection h2
    rw [List.nil_append, h']
  | cons e l ih =>
    intro l2 stk s h
    rw [List.cons_append, balRun_cons]
    rw [balRun_cons] at h
    cases hstep : balStep stk e with
    | none =>
      try rw [hstep] at h
      have h' : (none : Option (List BKind)) = some s := h
      cases h'
    | some stk2 =>
      try rw [hstep] at h
      try rw [hstep]
      have h3 : balRun l stk2 = some s := h
      exact ih l2 stk2 s h3

theorem balStep_frame {s1 s1' : List BKind} {e : Event}
    (h : balStep s1 e = some s1') (t : List BKind) :
    balStep (s1 ++ t) e = some (s1' ++ t) := by
  unfold balStep at h ⊢
  cases htok : evTok e with
  | none =>
    try rw [htok] at h
    have h1 : s1 = s1' := by
      have h2 : some s1 = some s1' := h
      injection h2
    show some (s1 ++ t) = some (s1' ++ t)
    rw [h1]
  | some bk =>
    obtain ⟨b, k⟩ := bk
    try rw [htok] at h
    cases b with
    | true =>
      have h1 : k :: s1 = s1' := by
        have h2 : some (k :: s1) = some s1' := h
        injection h2
      show some (k :: (s1 ++ t)) = some (s1' ++ t)
      rw [← h1]
      rfl
    | false =>
      cases s1 with
      | nil =>
        have h' : (none : Option (List BKind)) = some s1' := h
        cases h'
      | cons k' rest =>
        have h' : (if k = k' then some rest else none) = some s1' := h
        show (if k = k' then some (rest ++ t) else none) = some (s1' ++ t)
        by_cases hk : k = k'
        · rw [if_pos hk] at h' ⊢
          have h1 : rest = s1' := by injection h'
          rw [h1]
        · rw [if_neg hk] at h'
          cases h'

theorem balRun_frame : ∀ (l : List Event) (s1 s2 t : List BKind),
    balRun l s1 = some s2 → balRun l (s1 ++ t) = some (s2 ++ t) := by
  intro l
  induction l with
  | nil =>
    intro s1 s2 t h
    have h1 : s1 = s2 := by
      have h2 : some s1 = some s2 := h
      injection h2
    show some (s1 ++ t) = some (s2 ++ t)
    rw [h1]
  | cons e l ih =>
    intro s1 s2 t h
    unfold balRun at h ⊢
    cases hstep : balStep s1 e with
    | none =>
      try rw [hstep] at h
      have h' : (none : Option (List BKind)) = some s2 := h
      cases h'
    | some s1' =>
      try rw [hstep] at h
      rw [balStep_frame hstep t]
      have h' : balRun l s1' = some s2 := h
      show balRun l (s1' ++ t) = some (s2 ++ t)
      exact ih s1' s2 t h'

theorem Seg_append {a b : List Event} (ha : Seg a) (hb : Seg b) :
    Seg (a ++ b) := by
  unfold Seg at ha hb ⊢
  rw [balRun_append_some a b [] [] ha]
  exact hb

theorem Seg_wrap {eb ee : Event} {k : BKind} {m : List Event}
    (heb : evTok eb = some (true, k)) (hee : evTok ee = some (false, k))
    (hm : Seg m) : Seg (eb :: (m ++ [ee])) := by
  have hstep : balStep [] eb = some [k] := by
    unfold balStep
    rw [heb]
  have hstep2 : balStep [k] ee = some [] := by
    unfold balStep
    rw [hee]
    show (if k = k then some [] else none) = some []
    simp
  have hframe : balRun m [k] = some [k] := by
    have h0 := balRun_frame m [] [] [k] hm
    simpa using h0
  show balRun (eb :: (m ++ [ee])) [] = some []
  unfold balRun
  rw [hstep]
  show balRun (m ++ [ee]) [k] = some []
  rw [balRun_append_some m [ee] [k] [k] hframe]
  show balRun [ee] [k] = some []
  unfold balRun
  rw [hstep2]
  rfl

/-- The emitted-events relation between two parser states: the second state's
trace extends the first's by a properly bracketed segment. -/
def EvSeg (st st' : PSt σ) : Prop :=
  ∃ Δ, st'.evs = st.evs ++ Δ ∧ Seg Δ

theorem EvSeg_refl (st : PSt σ) : EvSeg st st :=
  ⟨[], by simp, Seg_nil⟩

theorem EvSeg_trans {st st1 st2 : PSt σ} (h1 : EvSeg st st1)
    (h2 : EvSeg st1 st2) : EvSeg st st2 := by
  obtain ⟨d1, e1, s1⟩ := h1
  obtain ⟨d2, e2, s2⟩ := h2
  exact ⟨d1 ++ d2, by rw [e2, e1, List.append_assoc], Seg_append s1 s2⟩

theorem EvSeg_of_evs_eq {st st' : PSt σ} (h : st'.evs = st.evs) :
    EvSeg st st' := ⟨[], by simp [h], Seg_nil⟩

theorem EvSeg_doCb_leaf {st : PSt σ} {e : Event} {x : Bool × σ}
    (h : evTok e = none) : EvSeg st (doCb st e x).2 :=
  ⟨[e], rfl, Seg_leaf h⟩

theorem EvSeg_doErr {F : ObsFuns σ} {st : PSt σ} {ec : Errc} {n : Nat} :
    EvSeg st (doErr F st ec n) :=
  ⟨[Event.error ec n], rfl, Seg_leaf rfl⟩

theorem commitCAA_ok_evs {σ : Type} {X st' : PSt σ} {b r : Bool} {p : Nat}
    (h : commitCAA X b p = .ok r st') : st'.evs = X.evs := by
  unfold commitCAA at h
  split at h
  · injection h with h1 h2
    rw [← h2]
    rfl
  · injection h with h1 h2
    rw [← h2]

theorem EvSeg_commit_plain {σ : Type} {st st' : PSt σ} {b r : Bool} {p : Nat}
    (h : commitCAA st b p = .ok r st') : EvSeg st st' :=
  EvSeg_of_evs_eq (commitCAA_ok_evs h)

theorem EvSeg_commit_doCb_leaf {σ : Type} {st st' : PSt σ} {e : Event}
    {x : Bool × σ} {b r : Bool} {p : Nat}
    (h : commitCAA (doCb st e x).2 b p = .ok r st') (he : evTok e = none) :
    EvSeg st st' := by
  have hevs : st'.evs = (doCb st e x).2.evs := commitCAA_ok_evs h
  exact ⟨[e], by rw [hevs]; rfl, Seg_leaf he⟩

theorem EvSeg_setPos {st st1 : PSt σ} (h : EvSeg st st1) (p : Nat) :
    EvSeg st (setPos st1 p) := by
  obtain ⟨d, he, hs⟩ := h
  exact ⟨d, he, hs⟩

/-- `advance_prose` emits a balanced (leaf-only) event segment. -/
theorem advance_prose_EvSeg {σ : Type} (F : ObsFuns σ) (s : Input)
    (st st' : PSt σ) (r : Bool) (h : advance_prose s F st = .ok r st') :
    EvSeg st st' := by
  unfold advance_prose at h
  try simp only [] at h
  repeat' split at h
  all_goals first
    | (have h2 := EvSeg_commit_doCb_leaf h rfl; exact h2)
    | (have h2 := EvSeg_commit_plain h; exact h2)
    | (cases h; exact EvSeg_refl _)
    | (cases h; exact EvSeg_doErr)
    | cases h

/-- The `'.'` loop emits a balanced (leaf-only) event segment. -/
theorem num_dots_loop_EvSeg {σ : Type} (F : ObsFuns σ) (s : Input)
    (flag : number_flag) (isd : Nat → Bool) :
    ∀ (fuel p : Nat) (b : Bool) (st : PSt σ) (r : Bool) (st' : PSt σ),
      num_dots_loop s F flag isd fuel p b st = .ok r st' → EvSeg st st' := by
  intro fuel
  induction fuel with
  | zero => intro p b st r st' h; cases h
  | succ f ih =>
    intro p b st r st' h
    unfold num_dots_loop at h
    try simp only [] at h
    repeat' split at h
    all_goals first
      | (have h2 := EvSeg_commit_doCb_leaf h rfl; exact h2)
      | (have h2 := EvSeg_commit_plain h; exact h2)
      | (refine EvSeg_trans (EvSeg_doCb_leaf ?_) (ih _ _ _ _ _ h); rfl)
      | (have h2 := ih _ _ _ _ _ h; exact h2)
      | (cases h; exact EvSeg_refl _)
      | (cases h; exact EvSeg_doErr)
      | cases h

/-- The tail of `advance_number` emits a balanced (leaf-only) event segment. -/
theorem advance_number_tail_EvSeg {σ : Type} (F : ObsFuns σ) (s : Input)
    (flag : number_flag) (isd : Nat → Bool) (p : Nat) (b : Bool)
    (st : PSt σ) (r : Bool) (st' : PSt σ)
    (h : advance_number_tail s F flag isd p b st = .ok r st') :
    EvSeg st st' := by
  unfold advance_number_tail at h
  try simp only [] at h
  repeat' split at h
  all_goals first
    | (have h2 := EvSeg_commit_doCb_leaf h rfl; exact h2)
    | (have h2 := EvSeg_commit_plain h; exact h2)
    | (have h2 := num_dots_loop_EvSeg F s _ _ _ _ _ _ _ _ h; exact h2)
    | (cases h; exact EvSeg_refl _)
    | (cases h; exact EvSeg_doErr)
    | cases h

/-- `advance_number` emits a balanced (leaf-only) event segment. -/
theorem advance_number_EvSeg {σ : Type} (F : ObsFuns σ) (s : Input)
    (st st' : PSt σ) (r : Bool) (h : advance_number s F st = .ok r st') :
    EvSeg st st' := by
  unfold advance_number at h
  try simp only [] at h
  repeat' split at h
  all_goals first
    | (refine EvSeg_trans (EvSeg_doCb_leaf ?_)
        (advance_number_tail_EvSeg F s _ _ _ _ _ _ _ h); rfl)
    | (cases h; exact EvSeg_refl _)
    | cases h

/-- `advance_quoted_string` emits a balanced (leaf-only) event segment. -/
theorem advance_quoted_string_EvSeg {σ : Type} (F : ObsFuns σ) (s : Input)
    (st st' : PSt σ) (r : Bool) (h : advance_quoted_string s F st = .ok r st') :
    EvSeg st st' := by
  unfold advance_quoted_string at h
  try simp only [] at h
  repeat' split at h
  all_goals first
    | (have h2 := EvSeg_commit_doCb_leaf h rfl; exact h2)
    | (have h2 := EvSeg_commit_plain h; exact h2)
    | (cases h; exact EvSeg_refl _)
    | (cases h; exact EvSeg_doErr)
    | cases h

/-- `repeat_finish` emits a balanced (leaf-only) event segment. -/
theorem repeat_finish_EvSeg {σ : Type} (F : ObsFuns σ) (s : Input)
    (st : PSt σ) (ff lf ft lt p : Nat) (r : Bool) (st' : PSt σ)
    (h : repeat_finish s F st ff lf ft lt p = .ok r st') :
    EvSeg st st' := by
  unfold repeat_finish at h
  try simp only [] at h
  repeat' split at h
  all_goals first
    | (have h2 := EvSeg_commit_doCb_leaf h rfl; exact h2)
    | (have h2 := EvSeg_commit_plain h; exact h2)
    | (cases h; exact EvSeg_refl _)
    | (cases h; exact EvSeg_doErr)
    | cases h

/-- `advance_repeat` emits a balanced (leaf-only) event segment. -/
theorem advance_repeat_EvSeg {σ : Type} (F : ObsFuns σ) (s : Input)
    (st st' : PSt σ) (r : Bool) (h : advance_repeat s F st = .ok r st') :
    EvSeg st st' := by
  unfold advance_repeat at h
  try simp only [] at h
  repeat' split at h
  all_goals first
    | (have h2 := EvSeg_commit_plain h; exact h2)
    | (have h2 := repeat_finish_EvSeg F s _ _ _ _ _ _ _ _ h; exact h2)
    | (cases h; exact EvSeg_refl _)
    | cases h

/-- `advance_rulename` emits a balanced (leaf-only) event segment. -/
theorem advance_rulename_EvSeg {σ : Type} (F : ObsFuns σ) (s : Input)
    (st st' : PSt σ) (r : Bool) (h : advance_rulename s F st = .ok r st') :
    EvSeg st st' := by
  unfold advance_rulename at h
  try simp only [] at h
  repeat' split at h
  all_goals first
    | (cases h; exact EvSeg_refl _)
    | (cases h; exact EvSeg_of_evs_eq rfl)
    | (cases h; exact ⟨_, rfl, Seg_leaf rfl⟩)
    | cases h

/-- `advance_comment` never touches the trace. -/
theorem advance_comment_evs {σ : Type} (s : Input) (st st' : PSt σ) (r : Bool)
    (h : advance_comment s st = .ok r st') : st'.evs = st.evs := by
  unfold advance_comment at h
  try simp only [] at h
  repeat' split at h
  all_goals first
    | (cases h; rfl)
    | cases h

/-- `advance_comment_newline` never touches the trace. -/
theorem advance_comment_newline_evs {σ : Type} (s : Input) (st st' : PSt σ)
    (r : Bool) (h : advance_comment_newline s st = .ok r st') :
    st'.evs = st.evs := by
  unfold advance_comment_newline at h
  try simp only [] at h
  split at h
  · cases h; rfl
  · exact advance_comment_evs s st st' r h

/-- `advance_comment_whitespace` never touches the trace. -/
theorem advance_comment_whitespace_evs {σ : Type} (s : Input) (st st' : PSt σ)
    (r : Bool) (h : advance_comment_whitespace s st = .ok r st') :
    st'.evs = st.evs := by
  unfold advance_comment_whitespace at h
  try simp only [] at h
  repeat' split at h
  all_goals first
    | (have h2 := commitCAA_ok_evs h; exact h2)
    | (cases h; rfl)
    | cases h

/-- `skip_cws` never touches the trace. -/
theorem skip_cws_evs {σ : Type} (s : Input) :
    ∀ (fuel : Nat) (st : PSt σ) (r : Bool) (st' : PSt σ),
      skip_cws s fuel st = .ok r st' → st'.evs = st.evs := by
  intro fuel
  induction fuel with
  | zero => intro st r st' h; cases h
  | succ f ih =>
    intro st r st' h
    unfold skip_cws at h
    cases hcw : advance_comment_whitespace s st with
    | ok b st1 =>
      try rw [hcw] at h
      cases b with
      | true =>
        have h' : skip_cws s f st1 = .ok r st' := h
        exact (ih st1 r st' h').trans (advance_comment_whitespace_evs s st st1 true hcw)
      | false =>
        have h' : PRes.ok true st1 = .ok r st' := h
        cases h'
        exact advance_comment_whitespace_evs s st st' false hcw
    | oob =>
      try rw [hcw] at h
      exact absurd h (by simp)
    | gas =>
      try rw [hcw] at h
      exact absurd h (by simp)

/-- `advance_defined_as` never touches the trace. -/
theorem advance_defined_as_evs {σ : Type} (s : Input) (fuel : Nat)
    (st : PSt σ) (r : Bool) (st' : PSt σ) (inc : Bool)
    (h : advance_defined_as s fuel st = (.ok r st', inc)) :
    st'.evs = st.evs := by
  unfold advance_defined_as at h
  split at h
  · injection h with h1 h2; cases h1; rfl
  · cases hsk : skip_cws s fuel st with
    | ok b1 st1 =>
      simp only [hsk] at h
      have e1 : st1.evs = st.evs := skip_cws_evs s fuel st b1 st1 hsk
      split at h
      · injection h with h1 h2; cases h1; exact e1
      · cases hg : s.get? st1.pos with
        | none => simp only [hg] at h; injection h with h1 h2; cases h1
        | some c =>
          simp only [hg] at h
          by_cases hc : c = 61
          · rw [if_pos hc] at h
            try simp only [] at h
            split at h
            · rename_i b2 st2 hsk2
              injection h with h1 h2
              have h3 := commitCAA_ok_evs h1
              rw [h3]
              exact (skip_cws_evs s fuel _ b2 st2 hsk2).trans e1
            · injection h with h1 h2; cases h1
            · injection h with h1 h2; cases h1
          · rw [if_neg hc] at h
            injection h with h1 h2; cases h1; exact e1
    | oob => simp only [hsk] at h; injection h with h1 h2; cases h1
    | gas => simp only [hsk] at h; injection h with h1 h2; cases h1

theorem EvSeg_cast {st st2 st' : PSt σ} (h : EvSeg st st2)
    (he : st'.evs = st2.evs) : EvSeg st st' := by
  obtain ⟨d, hd, hs⟩ := h
  exact ⟨d, he.trans hd, hs⟩

/-- The begin/end bracketing shape shared by the structural advancers: a
`doCb` emitting a begin bracket, a properly bracketed middle, and a `doCb`
emitting the matching end bracket. -/
theorem EvSeg_bracketed {st st3 : PSt σ} {eb ee : Event}
    {xb xe : Bool × σ} (k : BKind) (hm : EvSeg (doCb st eb xb).2 st3)
    (hb : evTok eb = some (true, k)) (he : evTok ee = some (false, k)) :
    EvSeg st (doCb st3 ee xe).2 := by
  obtain ⟨m, hmid, hseg⟩ := hm
  refine ⟨eb :: (m ++ [ee]), ?_, Seg_wrap hb he hseg⟩
  show st3.evs ++ [ee] = st.evs ++ (eb :: (m ++ [ee]))
  rw [hmid]
  show (st.evs ++ [eb]) ++ m ++ [ee] = _
  simp [List.append_assoc]

/-- The driver loop preserves proper bracketing when the driven function
does. -/
theorem rep_range_go_EvSeg {low high : Int} {f : PSt σ → PRes σ}
    (hf : ∀ (st : PSt σ) (r : Bool) (st' : PSt σ),
      f st = .ok r st' → EvSeg st st') (pos0 : Nat) :
    ∀ (fuel : Nat) (st : PSt σ) (count : Int) (r : Bool) (st' : PSt σ),
      rep_range_go low high f pos0 fuel st count = .ok r st' → EvSeg st st' := by
  intro fuel
  induction fuel with
  | zero => intro st count r st' h; cases h
  | succ n ih =>
    intro st count r st' h
    unfold rep_range_go at h
    cases h1 : f st with
    | ok b1 st1 =>
      cases b1 with
      | true =>
        simp only [h1] at h
        exact EvSeg_trans (hf st true st1 h1) (ih st1 (count + 1) r st' h)
      | false =>
        simp only [h1] at h
        split at h
        · cases h; exact EvSeg_setPos (hf st false st1 h1) _
        · cases h; exact EvSeg_setPos (hf st false st1 h1) _
    | oob => simp only [h1] at h; cases h
    | gas => simp only [h1] at h; cases h

theorem advance_repetition_by_range_EvSeg {low high : Int}
    {f : PSt σ → PRes σ}
    (hf : ∀ (st : PSt σ) (r : Bool) (st' : PSt σ),
      f st = .ok r st' → EvSeg st st')
    (fuel : Nat) (st : PSt σ) (r : Bool) (st' : PSt σ)
    (h : advance_repetition_by_range low high f fuel st = .ok r st') :
    EvSeg st st' := by
  unfold advance_repetition_by_range at h
  exact rep_range_go_EvSeg hf st.pos fuel st 0 r st' h

/-- Every advancer of the mutual structural block emits a properly bracketed
event segment, for every observer, input, fuel and starting state: one fuel
induction over the whole block. -/
theorem structural_EvSeg {σ : Type} (F : ObsFuns σ) (s : Input) :
    ∀ fuel : Nat,
      (∀ (st : PSt σ) (r : Bool) (st' : PSt σ),
        advance_element s F fuel st = .ok r st' → EvSeg st st') ∧
      (∀ (st : PSt σ) (r : Bool) (st' : PSt σ),
        advance_repetition s F fuel st = .ok r st' → EvSeg st st') ∧
      (∀ (st : PSt σ) (r : Bool) (st' : PSt σ),
        concat_step s F fuel st = .ok r st' → EvSeg st st') ∧
      (∀ (st : PSt σ) (r : Bool) (st' : PSt σ),
        advance_concatenation s F fuel st = .ok r st' → EvSeg st st') ∧
      (∀ (st : PSt σ) (r : Bool) (st' : PSt σ),
        alt_step s F fuel st = .ok r st' → EvSeg st st') ∧
      (∀ (st : PSt σ) (r : Bool) (st' : PSt σ),
        advance_alternation s F fuel st = .ok r st' → EvSeg st st') ∧
      (∀ (st : PSt σ) (r : Bool) (st' : PSt σ),
        advance_group_or_option s F fuel st = .ok r st' → EvSeg st st') ∧
      (∀ (st : PSt σ) (r : Bool) (st' : PSt σ),
        advance_group s F fuel st = .ok r st' → EvSeg st st') ∧
      (∀ (st : PSt σ) (r : Bool) (st' : PSt σ),
        advance_option s F fuel st = .ok r st' → EvSeg st st') := by
  intro fuel
  induction fuel with
  | zero =>
    refine ⟨?_, ?_, ?_, ?_, ?_, ?_, ?_, ?_, ?_⟩ <;> intro st r st' h <;>
      first
        | (simp only [advance_element] at h; cases h)
        | (simp only [advance_repetition] at h; cases h)
        | (simp only [concat_step] at h; cases h)
        | (simp only [advance_concatenation] at h; cases h)
        | (simp only [alt_step] at h; cases h)
        | (simp only [advance_alternation] at h; cases h)
        | (simp only [advance_group_or_option] at h; cases h)
        | (simp only [advance_group] at h; cases h)
        | (simp only [advance_option] at h; cases h)
        | cases h
  | succ f ih =>
    obtain ⟨ihE, ihRep, ihCS, ihC, ihAS, ihA, ihGO, ihG, ihO⟩ := ih
    have hE : ∀ (st : PSt σ) (r : Bool) (st' : PSt σ),
        advance_element s F (f + 1) st = .ok r st' → EvSeg st st' := by
      intro st r st' h
      unfold advance_element at h
      split at h
      · cases h; exact EvSeg_refl _
      · cases h1 : advance_rulename s F st with
        | ok b1 st1 =>
          have e1 : EvSeg st st1 := advance_rulename_EvSeg F s st st1 b1 h1
          cases b1 with
          | true => simp only [h1] at h; cases h; exact e1
          | false =>
            simp only [h1] at h
            cases h2 : advance_group s F f st1 with
            | ok b2 st2 =>
              have e2 : EvSeg st st2 := EvSeg_trans e1 (ihG st1 b2 st2 h2)
              cases b2 with
              | true => simp only [h2] at h; cases h; exact e2
              | false =>
                simp only [h2] at h
                cases h3 : advance_option s F f st2 with
                | ok b3 st3 =>
                  have e3 : EvSeg st st3 := EvSeg_trans e2 (ihO st2 b3 st3 h3)
                  cases b3 with
                  | true => simp only [h3] at h; cases h; exact e3
                  | false =>
                    simp only [h3] at h
                    cases h4 : advance_number s F st3 with
                    | ok b4 st4 =>
                      have e4 : EvSeg st st4 :=
                        EvSeg_trans e3 (advance_number_EvSeg F s st3 st4 b4 h4)
                      cases b4 with
                      | true => simp only [h4] at h; cases h; exact e4
                      | false =>
                        simp only [h4] at h
                        cases h5 : advance_quoted_string s F st4 with
                        | ok b5 st5 =>
                          have e5 : EvSeg st st5 :=
                            EvSeg_trans e4
                              (advance_quoted_string_EvSeg F s st4 st5 b5 h5)
                          cases b5 with
                          | true => simp only [h5] at h; cases h; exact e5
                          | false =>
                            simp only [h5] at h
                            exact EvSeg_trans e5 (advance_prose_EvSeg F s st5 st' r h)
                        | oob => simp only [h5] at h; cases h
                        | gas => simp only [h5] at h; cases h
                    | oob => simp only [h4] at h; cases h
                    | gas => simp only [h4] at h; cases h
                | oob => simp only [h3] at h; cases h
                | gas => simp only [h3] at h; cases h
            | oob => simp only [h2] at h; cases h
            | gas => simp only [h2] at h; cases h
        | oob => simp only [h1] at h; cases h
        | gas => simp only [h1] at h; cases h
    have hRep : ∀ (st : PSt σ) (r : Bool) (st' : PSt σ),
        advance_repetition s F (f + 1) st = .ok r st' → EvSeg st st' := by
      intro st r st' h
      unfold advance_repetition at h
      try simp only [] at h
      split at h
      · cases h; exact EvSeg_refl _
      · cases h1 : advance_repeat s F
            (doCb st .beginRepetition (F.beginRepetitionCb st.obs)).2 with
        | ok b1 st2 =>
          simp only [h1] at h
          have e1 : EvSeg (doCb st .beginRepetition (F.beginRepetitionCb st.obs)).2 st2 :=
            advance_repeat_EvSeg F s _ st2 b1 h1
          split at h
          · cases h2 : advance_element s F f st2 with
            | ok b2 st3 =>
              simp only [h2] at h
              cases h
              refine EvSeg_bracketed .rep (EvSeg_trans e1 (ihE st2 b2 st3 h2)) ?_ ?_ <;> rfl
            | oob => simp only [h2] at h; cases h
            | gas => simp only [h2] at h; cases h
          · cases h
            refine EvSeg_bracketed .rep e1 ?_ ?_ <;> rfl
        | oob => simp only [h1] at h; cases h
        | gas => simp only [h1] at h; cases h
    have hCS : ∀ (st : PSt σ) (r : Bool) (st' : PSt σ),
        concat_step s F (f + 1) st = .ok r st' → EvSeg st st' := by
      intro st r st' h
      unfold concat_step at h
      cases h1 : advance_repetition_by_range 1 intMax
          (fun st => advance_comment_whitespace s st) f st with
      | ok b1 st1 =>
        have e1 : EvSeg st st1 :=
          advance_repetition_by_range_EvSeg
            (fun a b c hh => EvSeg_of_evs_eq (advance_comment_whitespace_evs s a c b hh))
            f st b1 st1 h1
        cases b1 with
        | true =>
          simp only [h1] at h
          cases h2 : advance_repetition s F f st1 with
          | ok b2 st2 =>
            have e2 : EvSeg st st2 := EvSeg_trans e1 (ihRep st1 b2 st2 h2)
            cases b2 with
            | true => simp only [h2] at h; exact EvSeg_cast e2 ((commitCAA_ok_evs h).trans rfl)
            | false => simp only [h2] at h; cases h; exact EvSeg_setPos e2 _
          | oob => simp only [h2] at h; cases h
          | gas => simp only [h2] at h; cases h
        | false => simp only [h1] at h; cases h; exact EvSeg_setPos e1 _
      | oob => simp only [h1] at h; cases h
      | gas => simp only [h1] at h; cases h
    have hC : ∀ (st : PSt σ) (r : Bool) (st' : PSt σ),
        advance_concatenation s F (f + 1) st = .ok r st' → EvSeg st st' := by
      intro st r st' h
      unfold advance_concatenation at h
      try simp only [] at h
      split at h
      · cases h; exact EvSeg_refl _
      · split at h
        · cases h1 : advance_repetition s F f
              (doCb st .beginConcatenation (F.beginConcatenationCb st.obs)).2 with
          | ok b1 st2 =>
            have e1 : EvSeg (doCb st .beginConcatenation (F.beginConcatenationCb st.obs)).2 st2 :=
              ihRep _ b1 st2 h1
            cases b1 with
            | true =>
              simp only [h1] at h
              cases h2 : advance_repetition_by_range 0 intMax (concat_step s F f) f st2 with
              | ok b2 st3 =>
                simp only [h2] at h
                cases h
                refine EvSeg_bracketed .conc
                  (EvSeg_trans e1 (advance_repetition_by_range_EvSeg ihCS f st2 b2 st3 h2))
                  ?_ ?_ <;> rfl
              | oob => simp only [h2] at h; cases h
              | gas => simp only [h2] at h; cases h
            | false =>
              simp only [h1] at h
              cases h
              refine EvSeg_bracketed .conc e1 ?_ ?_ <;> rfl
          | oob => simp only [h1] at h; cases h
          | gas => simp only [h1] at h; cases h
        · cases h
          refine EvSeg_bracketed .conc (EvSeg_refl _) ?_ ?_ <;> rfl
    have hAS : ∀ (st : PSt σ) (r : Bool) (st' : PSt σ),
        alt_step s F (f + 1) st = .ok r st' → EvSeg st st' := by
      intro st r st' h
      unfold alt_step at h
      cases h1 : skip_cws s f st with
      | ok b1 st1 =>
        simp only [h1] at h
        have e1 : EvSeg st st1 := EvSeg_of_evs_eq (skip_cws_evs s f st b1 st1 h1)
        split at h
        · cases h; exact EvSeg_setPos e1 _
        · cases hg : s.get? st1.pos with
          | none => simp only [hg] at h; cases h
          | some c =>
            simp only [hg] at h
            split at h
            · cases h; exact EvSeg_setPos e1 _
            · try simp only [] at h
              split at h
              · cases h; exact EvSeg_setPos e1 _
              · cases h2 : skip_cws s f (setPos st1 (st1.pos + 1)) with
                | ok b2 st2 =>
                  simp only [h2] at h
                  have e2 : EvSeg st st2 :=
                    EvSeg_trans e1 (EvSeg_of_evs_eq ((skip_cws_evs s f _ b2 st2 h2).trans rfl))
                  cases h3 : advance_concatenation s F f st2 with
                  | ok b3 st3 =>
                    have e3 : EvSeg st st3 := EvSeg_trans e2 (ihC st2 b3 st3 h3)
                    cases b3 with
                    | true => simp only [h3] at h; exact EvSeg_cast e3 ((commitCAA_ok_evs h).trans rfl)
                    | false => simp only [h3] at h; cases h; exact EvSeg_setPos e3 _
                  | oob => simp only [h3] at h; cases h
                  | gas => simp only [h3] at h; cases h
                | oob => simp only [h2] at h; cases h
                | gas => simp only [h2] at h; cases h
      | oob => simp only [h1] at h; cases h
      | gas => simp only [h1] at h; cases h
    have hA : ∀ (st : PSt σ) (r : Bool) (st' : PSt σ),
        advance_alternation s F (f + 1) st = .ok r st' → EvSeg st st' := by
      intro st r st' h
      unfold advance_alternation at h
      try simp only [] at h
      split at h
      · cases h; exact EvSeg_refl _
      · split at h
        · cases h1 : advance_concatenation s F f
              (doCb st .beginAlternation (F.beginAlternationCb st.obs)).2 with
          | ok b1 st2 =>
            have e1 : EvSeg (doCb st .beginAlternation (F.beginAlternationCb st.obs)).2 st2 :=
              ihC _ b1 st2 h1
            cases b1 with
            | true =>
              simp only [h1] at h
              cases h2 : advance_repetition_by_range 0 intMax (alt_step s F f) f st2 with
              | ok b2 st3 =>
                simp only [h2] at h
                cases h
                refine EvSeg_bracketed .alt
                  (EvSeg_trans e1 (advance_repetition_by_range_EvSeg ihAS f st2 b2 st3 h2))
                  ?_ ?_ <;> rfl
              | oob => simp only [h2] at h; cases h
              | gas => simp only [h2] at h; cases h
            | false =>
              simp only [h1] at h
              cases h
              refine EvSeg_bracketed .alt e1 ?_ ?_ <;> rfl
          | oob => simp only [h1] at h; cases h
          | gas => simp only [h1] at h; cases h
        · cases h
          refine EvSeg_bracketed .alt (EvSeg_refl _) ?_ ?_ <;> rfl
    have hGO : ∀ (st : PSt σ) (r : Bool) (st' : PSt σ),
        advance_group_or_option s F (f + 1) st = .ok r st' → EvSeg st st' := by
      intro st r st' h
      unfold advance_group_or_option at h
      split at h
      · cases h; exact EvSeg_refl _
      · cases hg : s.get? st.pos with
        | none => simp only [hg] at h; cases h
        | some c =>
          simp only [hg] at h
          split at h
          · cases h; exact EvSeg_refl _
          · cases h1 : skip_cws s f (setPos st (st.pos + 1)) with
            | ok b1 st1 =>
              simp only [h1] at h
              have e1 : EvSeg st st1 := EvSeg_of_evs_eq ((skip_cws_evs s f _ b1 st1 h1).trans rfl)
              split at h
              · cases h; exact EvSeg_setPos e1 _
              · cases h2 : advance_alternation s F f st1 with
                | ok b2 st2 =>
                  cases b2 with
                  | true =>
                    simp only [h2] at h
                    have e2 : EvSeg st st2 := EvSeg_trans e1 (ihA st1 true st2 h2)
                    cases h3 : skip_cws s f st2 with
                    | ok b3 st3 =>
                      simp only [h3] at h
                      have e3 : EvSeg st st3 :=
                        EvSeg_trans e2 (EvSeg_of_evs_eq (skip_cws_evs s f st2 b3 st3 h3))
                      cases hg2 : s.get? st3.pos with
                      | none => simp only [hg2] at h; cases h
                      | some c2 =>
                        simp only [hg2] at h
                        split at h
                        · cases h; exact EvSeg_setPos e3 _
                        · exact EvSeg_cast e3 ((commitCAA_ok_evs h).trans rfl)
                    | oob => simp only [h3] at h; cases h
                    | gas => simp only [h3] at h; cases h
                  | false =>
                    simp only [h2] at h
                    cases h
                    exact EvSeg_setPos (EvSeg_trans e1 (ihA st1 false st2 h2)) _
                | oob => simp only [h2] at h; cases h
                | gas => simp only [h2] at h; cases h
            | oob => simp only [h1] at h; cases h
            | gas => simp only [h1] at h; cases h
    have hG : ∀ (st : PSt σ) (r : Bool) (st' : PSt σ),
        advance_group s F (f + 1) st = .ok r st' → EvSeg st st' := by
      intro st r st' h
      unfold advance_group at h
      try simp only [] at h
      split at h
      · cases h; exact EvSeg_refl _
      · cases hg : s.get? st.pos with
        | none => simp only [hg] at h; cases h
        | some c =>
          simp only [hg] at h
          split at h
          · cases h; exact EvSeg_refl _
          · split at h
            · cases h1 : advance_group_or_option s F f
                  (doCb st .beginGroup (F.beginGroupCb st.obs)).2 with
              | ok b1 st2 =>
                simp only [h1] at h
                cases h
                refine EvSeg_bracketed .grp (ihGO _ b1 st2 h1) ?_ ?_ <;> rfl
              | oob => simp only [h1] at h; cases h
              | gas => simp only [h1] at h; cases h
            · cases h
              refine EvSeg_bracketed .grp (EvSeg_refl _) ?_ ?_ <;> rfl
    have hO : ∀ (st : PSt σ) (r : Bool) (st' : PSt σ),
        advance_option s F (f + 1) st = .ok r st' → EvSeg st st' := by
      intro st r st' h
      unfold advance_option at h
      try simp only [] at h
      split at h
      · cases h; exact EvSeg_refl _
      · cases hg : s.get? st.pos with
        | none => simp only [hg] at h; cases h
        | some c =>
          simp only [hg] at h
          split at h
          · cases h; exact EvSeg_refl _
          · split at h
            · cases h1 : advance_group_or_option s F f
                  (doCb st .beginOption (F.beginOptionCb st.obs)).2 with
              | ok b1 st2 =>
                simp only [h1] at h
                cases h
                refine EvSeg_bracketed .opt (ihGO _ b1 st2 h1) ?_ ?_ <;> rfl
              | oob => simp only [h1] at h; cases h
              | gas => simp only [h1] at h; cases h
            · cases h
              refine EvSeg_bracketed .opt (EvSeg_refl _) ?_ ?_ <;> rfl
    exact ⟨hE, hRep, hCS, hC, hAS, hA, hGO, hG, hO⟩

/-- `advance_elements` emits a properly bracketed event segment. -/
theorem advance_elements_EvSeg {σ : Type} (F : ObsFuns σ) (s : Input)
    (fuel : Nat) (st : PSt σ) (r : Bool) (st' : PSt σ)
    (h : advance_elements s F fuel st = .ok r st') : EvSeg st st' := by
  obtain ⟨-, -, -, -, -, hA, -, -, -⟩ := structural_EvSeg F s fuel
  unfold advance_elements at h
  cases h1 : advance_alternation s F fuel st with
  | ok b1 st1 =>
    have e1 : EvSeg st st1 := hA st b1 st1 h1
    cases b1 with
    | true =>
      simp only [h1] at h
      cases h2 : skip_cws s fuel st1 with
      | ok b2 st2 =>
        simp only [h2] at h
        exact EvSeg_cast
          (EvSeg_trans e1 (EvSeg_of_evs_eq (skip_cws_evs s fuel st1 b2 st2 h2)))
          ((commitCAA_ok_evs h).trans rfl)
      | oob => simp only [h2] at h; cases h
      | gas => simp only [h2] at h; cases h
    | false => simp only [h1] at h; cases h; exact EvSeg_setPos e1 _
  | oob => simp only [h1] at h; cases h
  | gas => simp only [h1] at h; cases h

/-- `advance_rule_finish` emits a properly bracketed event segment: the
`begin_rule` bracket, the elements' segment, and the matching `end_rule`. -/
theorem advance_rule_finish_EvSeg {σ : Type} (F : ObsFuns σ) (s : Input)
    (fuel rf rl : Nat) (inc : Bool) (origPos : Nat) (st1 : PSt σ)
    (r : Bool) (st' : PSt σ)
    (h : advance_rule_finish s F fuel rf rl inc origPos st1 = .ok r st') :
    EvSeg st1 st' := by
  unfold advance_rule_finish at h
  try simp only [] at h
  split at h
  · rename_i succ1 st2 hm1
    have e1 : EvSeg (doCb st1 (Event.beginRule rf rl inc)
        (F.beginRuleCb st1.obs rf rl inc)).2 st2 := by
      split at hm1
      · exact advance_elements_EvSeg F s fuel _ succ1 st2 hm1
      · cases hm1; exact EvSeg_refl _
    split at h
    · rename_i succ2 st3 hm2
      have evs3 : st3.evs = st2.evs := by
        split at hm2
        · split at hm2
          · exact advance_comment_newline_evs s st2 st3 succ2 hm2
          · cases hm2; rfl
        · cases hm2; rfl
      refine EvSeg_cast
        (EvSeg_bracketed (.rul rf rl inc) (EvSeg_setPos (EvSeg_cast e1 evs3) _) ?_ ?_)
        ((commitCAA_ok_evs h).trans rfl) <;> rfl
    · cases h
    · cases h
  · cases h
  · cases h

/-- `advance_rule` emits a properly bracketed event segment. -/
theorem advance_rule_EvSeg {σ : Type} (F : ObsFuns σ) (s : Input)
    (fuel : Nat) (st : PSt σ) (r : Bool) (st' : PSt σ)
    (h : advance_rule s F fuel st = .ok r st') : EvSeg st st' := by
  unfold advance_rule at h
  split at h
  · cases h; exact EvSeg_refl _
  · cases hrn : advance_rulename_helper s st.pos with
    | none => simp only [hrn] at h; cases h
    | some q =>
      obtain ⟨ok1, p1, rf, rl⟩ := q
      simp only [hrn] at h
      split at h
      · cases h; exact EvSeg_refl _
      · cases hda : advance_defined_as s fuel (setPos st p1) with
        | mk pr inc =>
          cases pr with
          | ok da st1 =>
            simp only [hda] at h
            have e1 : EvSeg st st1 :=
              EvSeg_of_evs_eq
                ((advance_defined_as_evs s fuel (setPos st p1) da st1 inc hda).trans rfl)
            split at h
            · cases h; exact EvSeg_setPos e1 _
            · exact EvSeg_trans e1
                (advance_rule_finish_EvSeg F s fuel rf rl inc st.pos st1 r st' h)
          | oob => simp only [hda] at h; cases h
          | gas => simp only [hda] at h; cases h

/-- One `rule / (*c-wsp c-nl)` step of the rulelist emits a properly
bracketed event segment. -/
theorem rulelist_step_EvSeg {σ : Type} (F : ObsFuns σ) (s : Input)
    (fuel : Nat) (st : PSt σ) (r : Bool) (st' : PSt σ)
    (h : rulelist_step s F fuel st = .ok r st') : EvSeg st st' := by
  unfold rulelist_step at h
  cases h1 : advance_rule s F fuel st with
  | ok b1 st1 =>
    have e1 : EvSeg st st1 := advance_rule_EvSeg F s fuel st b1 st1 h1
    cases b1 with
    | true =>
      simp only [h1] at h
      exact EvSeg_cast e1 ((commitCAA_ok_evs h).trans rfl)
    | false =>
      simp only [h1] at h
      cases h2 : skip_cws s fuel (setPos st1 st.pos) with
      | ok b2 st2 =>
        simp only [h2] at h
        have e2 : EvSeg st st2 :=
          EvSeg_trans e1 (EvSeg_of_evs_eq ((skip_cws_evs s fuel _ b2 st2 h2).trans rfl))
        split at h
        · cases h3 : advance_comment_newline s st2 with
          | ok b3 st3 =>
            have e3 : EvSeg st st3 :=
              EvSeg_cast e2 (advance_comment_newline_evs s st2 st3 b3 h3)
            cases b3 with
            | true =>
              simp only [h3] at h
              exact EvSeg_cast e3 ((commitCAA_ok_evs h).trans rfl)
            | false => simp only [h3] at h; cases h; exact EvSeg_setPos e3 _
          | oob => simp only [h3] at h; cases h
          | gas => simp only [h3] at h; cases h
        · exact EvSeg_cast e2 ((commitCAA_ok_evs h).trans rfl)
      | oob => simp only [h2] at h; cases h
      | gas => simp only [h2] at h; cases h
  | oob => simp only [h1] at h; cases h
  | gas => simp only [h1] at h; cases h

/-- The entry point `advance_rulelist` emits a properly bracketed event
segment: `begin_document`, the rules' segments, `end_document`. -/
theorem advance_rulelist_EvSeg {σ : Type} (F : ObsFuns σ) (s : Input)
    (fuel : Nat) (st : PSt σ) (r : Bool) (st' : PSt σ)
    (h : advance_rulelist s F fuel st = .ok r st') : EvSeg st st' := by
  unfold advance_rulelist at h
  try simp only [] at h
  split at h
  · cases h1 : advance_repetition_by_range 1 intMax (rulelist_step s F fuel) fuel
        (doCb st .beginDocument (F.beginDocumentCb st.obs)).2 with
    | ok b1 st2 =>
      simp only [h1] at h
      cases h
      refine EvSeg_bracketed .doc
        (advance_repetition_by_range_EvSeg
          (fun a b c hh => rulelist_step_EvSeg F s fuel a b c hh) fuel _ b1 st2 h1)
        ?_ ?_ <;> rfl
    | oob => simp only [h1] at h; cases h
    | gas => simp only [h1] at h; cases h
  · cases h
    refine EvSeg_bracketed .doc (EvSeg_refl _) ?_ ?_ <;> rfl

/-- For observers whose `end_repetition` callback never vetoes, the success
flag carried by the emitted `end_repetition` event equals the returned
success of `advance_repetition`, and the call's segment is exactly
`begin_repetition`, a middle, and that `end_repetition`. -/
theorem advance_repetition_end_flag {σ : Type} (F : ObsFuns σ) (s : Input)
    (hF : ∀ (o : σ) (b : Bool), (F.endRepetitionCb o b).1 = true)
    (fuel : Nat) (st : PSt σ) (r : Bool) (st' : PSt σ)
    (h : advance_repetition s F fuel st = .ok r st') (hne : st.pos ≠ s.length) :
    ∃ mid, st'.evs =
      st.evs ++ (Event.beginRepetition :: (mid ++ [Event.endRepetition r])) := by
  cases fuel with
  | zero => cases h
  | succ f =>
    obtain ⟨hE, -, -, -, -, -, -, -, -⟩ := structural_EvSeg F s f
    unfold advance_repetition at h
    rw [if_neg hne] at h
    try simp only [] at h
    cases h1 : advance_repeat s F
        (doCb st .beginRepetition (F.beginRepetitionCb st.obs)).2 with
    | ok b1 st2 =>
      simp only [h1] at h
      obtain ⟨m1, hm1, -⟩ := advance_repeat_EvSeg F s _ st2 b1 h1
      split at h
      · cases h2 : advance_element s F f st2 with
        | ok b2 st3 =>
          simp only [h2] at h
          obtain ⟨m2, hm2, -⟩ := hE st2 b2 st3 h2
          injection h with hr hst
          have hfl : (F.endRepetitionCb st3.obs b2).1 = true := hF _ _
          have hrb : r = b2 := by
            rw [← hr]
            show ((F.endRepetitionCb st3.obs b2).1 && b2) = b2
            rw [hfl]
            simp
          subst hrb
          refine ⟨m1 ++ m2, ?_⟩
          rw [← hst]
          show st3.evs ++ [Event.endRepetition r] = _
          rw [hm2, hm1]
          show ((st.evs ++ [Event.beginRepetition]) ++ m1) ++ m2
              ++ [Event.endRepetition r] = _
          simp [List.append_assoc]
        | oob => simp only [h2] at h; cases h
        | gas => simp only [h2] at h; cases h
      · injection h with hr hst
        have hfl : (F.endRepetitionCb st2.obs false).1 = true := hF _ _
        have hrb : r = false := by
          rw [← hr]
          show ((F.endRepetitionCb st2.obs false).1 && false) = false
          simp
        subst hrb
        refine ⟨m1, ?_⟩
        rw [← hst]
        show st2.evs ++ [Event.endRepetition false] = _
        rw [hm1]
        show ((st.evs ++ [Event.beginRepetition]) ++ m1)
            ++ [Event.endRepetition false] = _
        simp [List.append_assoc]
    | oob => simp only [h1] at h; cases h
    | gas => simp only [h1] at h; cases h

/-- C3 (amended): for every input, observer, fuel and starting state, the
events emitted by one advancer call form a properly bracketed segment —
begin/end events match one-to-one by kind and nest LIFO (`EvSeg`, i.e. the
bracket checker accepts the emitted segment) — for the entry point
`advance_rulelist` as well as for `advance_rule`, `advance_repetition` and
`advance_alternation`.  Moreover, for observers whose `end_repetition`
callback never vetoes, the success flag carried by the emitted
`end_repetition` event equals the returned success of `advance_repetition`
(the original claim's "end carries the production's success" fails only for
vetoing end callbacks, see the counterexample). -/
theorem C3_brackets_amended :
    (∀ (σ : Type) (F : ObsFuns σ) (s : Input) (fuel : Nat) (st : PSt σ)
        (r : Bool) (st' : PSt σ),
      advance_rulelist s F fuel st = .ok r st' → EvSeg st st') ∧
    (∀ (σ : Type) (F : ObsFuns σ) (s : Input) (fuel : Nat) (st : PSt σ)
        (r : Bool) (st' : PSt σ),
      advance_rule s F fuel st = .ok r st' → EvSeg st st') ∧
    (∀ (σ : Type) (F : ObsFuns σ) (s : Input) (fuel : Nat) (st : PSt σ)
        (r : Bool) (st' : PSt σ),
      advance_repetition s F fuel st = .ok r st' → EvSeg st st') ∧
    (∀ (σ : Type) (F : ObsFuns σ) (s : Input) (fuel : Nat) (st : PSt σ)
        (r : Bool) (st' : PSt σ),
      advance_alternation s F fuel st = .ok r st' → EvSeg st st') ∧
    (∀ (σ : Type) (F : ObsFuns σ) (s : Input) (fuel : Nat) (st : PSt σ)
        (r : Bool) (st' : PSt σ),
      (∀ (o : σ) (b : Bool), (F.endRepetitionCb o b).1 = true) →
      advance_repetition s F fuel st = .ok r st' → st.pos ≠ s.length →
      ∃ mid, st'.evs =
        st.evs ++ (Event.beginRepetition :: (mid ++ [Event.endRepetition r]))) := by
  refine ⟨?_, ?_, ?_, ?_, ?_⟩
  · intro σ F s fuel st r st' h
    exact advance_rulelist_EvSeg F s fuel st r st' h
  · intro σ F s fuel st r st' h
    exact advance_rule_EvSeg F s fuel st r st' h
  · intro σ F s fuel st r st' h
    exact (structural_EvSeg F s fuel).2.1 st r st' h
  · intro σ F s fuel st r st' h
    exact (structural_EvSeg F s fuel).2.2.2.2.2.1 st r st' h
  · intro σ F s fuel st r st' hF h hne
    exact advance_repetition_end_flag F s hF fuel st r st' h hne

/-- Witness for C3 (amended): the concrete run `advance_repetition` on `"a"`
with the all-accepting observer, whose emitted segment is
`begin_repetition, rulename, end_repetition(true)` and whose returned
success `true` equals the end event's flag. -/
theorem C3_brackets_amended_witness :
    (∀ (o : Unit) (b : Bool), (obsAll.endRepetitionCb o b).1 = true) ∧
    advance_repetition [97] obsAll 20 st0 =
      .ok true ⟨1, (), [Event.beginRepetition, Event.rulename 0 1,
        Event.endRepetition true]⟩ ∧
    st0.pos ≠ [97].length ∧
    (∃ mid, (⟨1, (), [Event.beginRepetition, Event.rulename 0 1,
        Event.endRepetition true]⟩ : PSt Unit).evs =
      st0.evs ++ (Event.beginRepetition :: (mid ++ [Event.endRepetition true]))) := by
  refine ⟨fun o b => rfl, by decide, by decide, ?_⟩
  exact C3_brackets_amended.2.2.2.2 Unit obsAll [97] 20 st0 true
    ⟨1, (), [Event.beginRepetition, Event.rulename 0 1, Event.endRepetition true]⟩
    (fun o b => rfl) (by decide) (by decide)

end PfsParser
